import Mathlib

/-!
Verification of the vote state machine (`src/programs/vote_api/src/vote_state.rs`)
and the leader schedule cache (`src/core/src/leader_schedule_cache.rs`).

Machine integers (`u64` slots and epochs, `u32` confirmation counts, `u8`
commission) are embedded as `Nat`; none of the verified operations can
overflow their Rust widths on the inputs considered.  Public keys and hashes
are opaque 32-byte values in the source and are embedded as `Nat`, with `0`
playing the role of `Pubkey::default()`.
-/

namespace Solana

/-- Maximum number of votes kept in the tower (`MAX_LOCKOUT_HISTORY`). -/
def MAX_LOCKOUT_HISTORY : Nat := 31

/-- Base of the lockout doubling (`INITIAL_LOCKOUT`). -/
def INITIAL_LOCKOUT : Nat := 2

/-- Maximum length of the epoch-credits history (`MAX_EPOCH_CREDITS_HISTORY`). -/
def MAX_EPOCH_CREDITS_HISTORY : Nat := 64

/-- A vote for a slot, carrying the bank hash at that slot (`Vote`). -/
structure Vote where
  slot : Nat
  hash : Nat
  deriving DecidableEq, Repr

/-- One entry of the vote tower (`Lockout`). -/
structure Lockout where
  slot : Nat
  confirmation_count : Nat
  deriving DecidableEq, Repr

/-- Construct the lockout recorded for a fresh vote (`Lockout::new`). -/
def Lockout.ofVote (v : Vote) : Lockout :=
  { slot := v.slot, confirmation_count := 1 }

/-- Number of slots this vote is locked out for (`Lockout::lockout`). -/
def Lockout.lockout (l : Lockout) : Nat :=
  INITIAL_LOCKOUT ^ l.confirmation_count

/-- Slot at which this vote expires (`Lockout::expiration_slot`). -/
def Lockout.expiration_slot (l : Lockout) : Nat :=
  l.slot + l.lockout

/-- Whether this vote is expired at the queried slot (`Lockout::is_expired`). -/
def Lockout.is_expired (l : Lockout) (slot : Nat) : Bool :=
  l.expiration_slot < slot

/-- Per-account vote state (`VoteState`).  The `votes` deque is embedded as a
list whose head is the front (oldest vote) and whose last element is the
back (most recent vote). -/
structure VoteState where
  votes : List Lockout
  node_pubkey : Nat
  authorized_voter_pubkey : Nat
  commission : Nat
  root_slot : Option Nat
  epoch : Nat
  credits : Nat
  last_epoch_credits : Nat
  epoch_credits : List (Nat × Nat × Nat)
  deriving DecidableEq, Repr

/-- The zero-initialized vote state (`VoteState::default()`). -/
def VoteState.default : VoteState :=
  { votes := []
    node_pubkey := 0
    authorized_voter_pubkey := 0
    commission := 0
    root_slot := none
    epoch := 0
    credits := 0
    last_epoch_credits := 0
    epoch_credits := [] }

/-- Fresh vote state for an account (`VoteState::new`). -/
def VoteState.new (vote_pubkey node_pubkey commission : Nat) : VoteState :=
  { VoteState.default with
    node_pubkey := node_pubkey
    authorized_voter_pubkey := vote_pubkey
    commission := commission }

/-- Pop votes off the back of the tower while the back is expired at `slot`
(`VoteState::pop_expired_votes`): removes the maximal expired suffix. -/
def VoteState.pop_expired_votes (votes : List Lockout) (slot : Nat) : List Lockout :=
  ((votes.reverse).dropWhile (fun v => v.is_expired slot)).reverse

/-- Body of the `double_lockouts` loop: `i` is the 0-indexed position of the
head of the remaining list within the full tower of depth `stack_depth`. -/
def VoteState.double_lockouts_aux (stack_depth : Nat) : Nat → List Lockout → List Lockout
  | _, [] => []
  | i, v :: rest =>
    (if stack_depth > i + v.confirmation_count then
      { v with confirmation_count := v.confirmation_count + 1 }
    else v) :: VoteState.double_lockouts_aux stack_depth (i + 1) rest

/-- Increment the confirmation count of every vote whose position admits it
(`VoteState::double_lockouts`). -/
def VoteState.double_lockouts (votes : List Lockout) : List Lockout :=
  VoteState.double_lockouts_aux votes.length 0 votes

/-- Record credits, rolling the epoch-credits history on an epoch change
(`VoteState::increment_credits`). -/
def VoteState.increment_credits (vs : VoteState) (epoch : Nat) : VoteState :=
  let vs :=
    if epoch ≠ vs.epoch then
      let ec := vs.epoch_credits ++ [(vs.epoch, vs.credits, vs.last_epoch_credits)]
      let ec := if ec.length > MAX_EPOCH_CREDITS_HISTORY then ec.drop 1 else ec
      { vs with epoch_credits := ec, epoch := epoch, last_epoch_credits := vs.credits }
    else vs
  { vs with credits := vs.credits + 1 }

/-- The regression check at the top of `process_vote`: true when the tower is
non-empty and its back slot is at least the new vote's slot. -/
def VoteState.regressionCheck (votes : List Lockout) (slot : Nat) : Bool :=
  match votes.getLast? with
  | some old => old.slot ≥ slot
  | none => false

/-- The witness check of `process_vote`: true when some recent `(slot, hash)`
pair matches the vote. -/
def VoteState.witnessCheck (v : Vote) (slot_hashes : List (Nat × Nat)) : Bool :=
  slot_hashes.any (fun p => v.slot == p.1 && v.hash == p.2)

/-- Process a single vote (`VoteState::process_vote`). -/
def VoteState.process_vote (vs : VoteState) (v : Vote)
    (slot_hashes : List (Nat × Nat)) (epoch : Nat) : VoteState :=
  if VoteState.regressionCheck vs.votes v.slot then vs
  else if ! VoteState.witnessCheck v slot_hashes then vs
  else
    let newVote := Lockout.ofVote v
    let vs := { vs with votes := VoteState.pop_expired_votes vs.votes v.slot }
    let vs :=
      if vs.votes.length == MAX_LOCKOUT_HISTORY then
        match vs.votes with
        | front :: rest =>
          VoteState.increment_credits
            { vs with votes := rest, root_slot := some front.slot } epoch
        | [] => vs
      else vs
    { vs with votes := VoteState.double_lockouts (vs.votes ++ [newVote]) }

/-- Process a batch of votes in order (`VoteState::process_votes`). -/
def VoteState.process_votes (vs : VoteState) (votes : List Vote)
    (slot_hashes : List (Nat × Nat)) (epoch : Nat) : VoteState :=
  votes.foldl (fun st v => VoteState.process_vote st v slot_hashes epoch) vs

/-- Nth most recent vote, position 0 being the newest
(`VoteState::nth_recent_vote`). -/
def VoteState.nth_recent_vote (vs : VoteState) (position : Nat) : Option Lockout :=
  if position < vs.votes.length then
    vs.votes.get? (vs.votes.length - 1 - position)
  else none

/-- A `process_vote` call together with its witness list and clock epoch. -/
structure VoteOp where
  vote : Vote
  slot_hashes : List (Nat × Nat)
  epoch : Nat

/-- Apply a sequence of `process_vote` calls to a vote state. -/
def VoteState.applyVotes (ops : List VoteOp) (vs : VoteState) : VoteState :=
  ops.foldl (fun st op => st.process_vote op.vote op.slot_hashes op.epoch) vs

/-! Helper lemmas about the tower operations. -/

theorem dropWhile_decomp {α : Type} (p : α → Bool) (l : List α) :
    ∃ t, l = t ++ l.dropWhile p ∧ ∀ x ∈ t, p x = true := by
  induction l with
  | nil => exact ⟨[], rfl, by simp⟩
  | cons a l ih =>
    by_cases h : p a
    · obtain ⟨t, ht, hmem⟩ := ih
      refine ⟨a :: t, ?_, ?_⟩
      · simpa [List.dropWhile_cons, h] using ht
      · intro x hx
        rcases List.mem_cons.mp hx with hx | hx
        · simpa [hx] using h
        · exact hmem x hx
    · refine ⟨[], ?_, by simp⟩
      simp [List.dropWhile_cons, h]

theorem head?_dropWhile_false {α : Type} (p : α → Bool) (l : List α) (x : α)
    (h : (l.dropWhile p).head? = some x) : p x = false := by
  induction l with
  | nil => simp [List.dropWhile] at h
  | cons a l ih =>
    by_cases ha : p a
    · rw [List.dropWhile_cons, if_pos ha] at h
      exact ih h
    · rw [List.dropWhile_cons, if_neg ha] at h
      simp at h
      simpa [← h] using ha

/-- The expiration sweep removes a suffix of all-expired votes and stops at a
non-expired back. -/
theorem pop_expired_decomp (votes : List Lockout) (s : Nat) :
    ∃ dropped, votes = VoteState.pop_expired_votes votes s ++ dropped ∧
      (∀ l ∈ dropped, l.is_expired s = true) ∧
      (∀ l, (VoteState.pop_expired_votes votes s).getLast? = some l →
        l.is_expired s = false) := by
  obtain ⟨t, ht, hmem⟩ := dropWhile_decomp (fun v => v.is_expired s) votes.reverse
  refine ⟨t.reverse, ?_, ?_, ?_⟩
  · have h := congrArg List.reverse ht
    simpa [VoteState.pop_expired_votes, List.reverse_append] using h
  · intro l hl
    exact hmem l (List.mem_reverse.mp hl)
  · intro l hl
    rw [VoteState.pop_expired_votes, List.getLast?_reverse] at hl
    exact head?_dropWhile_false _ _ l hl

theorem double_lockouts_aux_getElem? (d : Nat) (l : List Lockout) (j i : Nat) :
    (VoteState.double_lockouts_aux d j l)[i]? =
      (l[i]?).map (fun v =>
        if d > j + i + v.confirmation_count then
          { v with confirmation_count := v.confirmation_count + 1 } else v) := by
  induction l generalizing j i with
  | nil => simp [VoteState.double_lockouts_aux]
  | cons a l ih =>
    cases i with
    | zero => simp [VoteState.double_lockouts_aux]
    | succ i =>
      have := ih (j + 1) i
      simp only [VoteState.double_lockouts_aux, List.getElem?_cons_succ, this]
      have harith : ∀ c : Nat, j + 1 + i + c = j + (i + 1) + c := by omega
      simp [harith]

theorem double_lockouts_getElem? (votes : List Lockout) (i : Nat) :
    (VoteState.double_lockouts votes)[i]? =
      (votes[i]?).map (fun v =>
        if votes.length > i + v.confirmation_count then
          { v with confirmation_count := v.confirmation_count + 1 } else v) := by
  simpa using double_lockouts_aux_getElem? votes.length votes 0 i

theorem double_lockouts_aux_length (d j : Nat) (l : List Lockout) :
    (VoteState.double_lockouts_aux d j l).length = l.length := by
  induction l generalizing j with
  | nil => rfl
  | cons a l ih => simp [VoteState.double_lockouts_aux, ih]

theorem double_lockouts_length (votes : List Lockout) :
    (VoteState.double_lockouts votes).length = votes.length :=
  double_lockouts_aux_length votes.length 0 votes

theorem increment_credits_votes (vs : VoteState) (e : Nat) :
    (vs.increment_credits e).votes = vs.votes := by
  unfold VoteState.increment_credits
  split <;> simp

theorem increment_credits_credits (vs : VoteState) (e : Nat) :
    (vs.increment_credits e).credits = vs.credits + 1 := by
  unfold VoteState.increment_credits
  split <;> simp

theorem increment_credits_root_slot (vs : VoteState) (e : Nat) :
    (vs.increment_credits e).root_slot = vs.root_slot := by
  unfold VoteState.increment_credits
  split <;> simp

/-- C2: if the tower was non-empty with a back slot at least the new vote's
slot, or no witness pair matches the vote's slot and hash, then `process_vote`
leaves the vote state entirely unchanged (and signals no error). -/
theorem c2_rejections_leave_state_unchanged (vs : VoteState) (v : Vote)
    (w : List (Nat × Nat)) (e : Nat)
    (h : (∃ l, vs.votes.getLast? = some l ∧ v.slot ≤ l.slot) ∨
         ∀ p ∈ w, ¬(p.1 = v.slot ∧ p.2 = v.hash)) :
    vs.process_vote v w e = vs := by
  rcases h with ⟨l, hl, hle⟩ | h
  · have hreg : VoteState.regressionCheck vs.votes v.slot = true := by
      simp [VoteState.regressionCheck, hl, hle]
    simp [VoteState.process_vote, hreg]
  · by_cases hreg : VoteState.regressionCheck vs.votes v.slot
    · simp [VoteState.process_vote, hreg]
    · have hwit : VoteState.witnessCheck v w = false := by
        rw [VoteState.witnessCheck, List.any_eq_false]
        intro p hp
        have := h p hp
        simp only [Bool.and_eq_true, beq_iff_eq]
        rintro ⟨h1, h2⟩
        exact this ⟨h1.symm, h2.symm⟩
      simp [VoteState.process_vote, hreg, hwit]

/-- Witness for C2 at a concrete regressing vote. -/
theorem c2_witness :
    VoteState.process_vote { VoteState.default with votes := [⟨5, 1⟩] } ⟨3, 0⟩
        [(3, 0)] 0 =
      { VoteState.default with votes := [⟨5, 1⟩] } :=
  c2_rejections_leave_state_unchanged _ _ _ _ (Or.inl ⟨⟨5, 1⟩, by decide, by decide⟩)

/-- Shape of the tower produced by an accepted `process_vote`. -/
theorem process_vote_votes_accepted (vs : VoteState) (v : Vote)
    (w : List (Nat × Nat)) (e : Nat)
    (hreg : VoteState.regressionCheck vs.votes v.slot = false)
    (hwit : VoteState.witnessCheck v w = true) :
    (vs.process_vote v w e).votes =
      VoteState.double_lockouts
        ((if (VoteState.pop_expired_votes vs.votes v.slot).length =
              MAX_LOCKOUT_HISTORY
          then (VoteState.pop_expired_votes vs.votes v.slot).tail
          else VoteState.pop_expired_votes vs.votes v.slot) ++
          [Lockout.ofVote v]) := by
  simp only [VoteState.process_vote, hreg, hwit, Bool.not_true, Bool.false_eq_true,
    if_false]
  cases hp : VoteState.pop_expired_votes vs.votes v.slot with
  | nil => simp [hp, MAX_LOCKOUT_HISTORY]
  | cons front rest =>
    by_cases hfull : rest.length + 1 = MAX_LOCKOUT_HISTORY
    · simp [hp, hfull, increment_credits_votes]
    · simp [hp, hfull]

/-- C4: the expiration sweep pops exactly the maximal all-expired suffix,
where a vote with slot `s` and confirmation count `c` is expired at the new
vote's slot iff `s + 2 ^ c` is strictly below it; the doubling pass
increments the confirmation count by one at exactly those front-indexed
positions `i` with `|votes| - i > confirmation_count`, leaving every other
entry unchanged; and every accepted `process_vote` runs the sweep first and
the doubling pass after the push. -/
theorem c4_sweep_and_doubling :
    (∀ (l : Lockout) (s : Nat),
        l.is_expired s = decide (l.slot + INITIAL_LOCKOUT ^ l.confirmation_count < s)) ∧
    (∀ (votes : List Lockout) (s : Nat), ∃ dropped,
        votes = VoteState.pop_expired_votes votes s ++ dropped ∧
        (∀ l ∈ dropped, l.is_expired s = true) ∧
        (∀ l, (VoteState.pop_expired_votes votes s).getLast? = some l →
          l.is_expired s = false)) ∧
    (∀ votes : List Lockout, (VoteState.double_lockouts votes).length = votes.length) ∧
    (∀ (votes : List Lockout) (i : Nat) (v : Lockout), votes[i]? = some v →
        (VoteState.double_lockouts votes)[i]? =
          some (if votes.length - i > v.confirmation_count then
            { v with confirmation_count := v.confirmation_count + 1 } else v)) ∧
    (∀ (vs : VoteState) (v : Vote) (w : List (Nat × Nat)) (e : Nat),
        VoteState.regressionCheck vs.votes v.slot = false →
        VoteState.witnessCheck v w = true →
        (vs.process_vote v w e).votes =
          VoteState.double_lockouts
            ((if (VoteState.pop_expired_votes vs.votes v.slot).length =
                MAX_LOCKOUT_HISTORY
              then (VoteState.pop_expired_votes vs.votes v.slot).tail
              else VoteState.pop_expired_votes vs.votes v.slot) ++
              [Lockout.ofVote v])) := by
  refine ⟨fun l s => rfl, pop_expired_decomp, double_lockouts_length, ?_,
    process_vote_votes_accepted⟩
  intro votes i v hv
  have hi : i < votes.length := (List.getElem?_eq_some.mp hv).1
  rw [double_lockouts_getElem?, hv]
  simp only [Option.map_some']
  congr 1
  have hiff : votes.length > i + v.confirmation_count ↔
      votes.length - i > v.confirmation_count := by omega
  by_cases hc : votes.length > i + v.confirmation_count
  · rw [if_pos hc, if_pos (hiff.mp hc)]
  · rw [if_neg hc, if_neg (fun hh => hc (hiff.mpr hh))]

/-- Witness for C4: the doubling pass bumps the front entry of a depth-2 tower. -/
theorem c4_witness :
    (VoteState.double_lockouts [⟨5, 1⟩, ⟨6, 1⟩])[0]? = some ⟨5, 2⟩ := by
  have h := c4_sweep_and_doubling.2.2.2.1 [⟨5, 1⟩, ⟨6, 1⟩] 0 ⟨5, 1⟩ (by decide)
  rw [if_pos (by norm_num)] at h
  exact h

set_option maxRecDepth 100000 in
/-- C3: in an accepted `process_vote` whose post-sweep tower is full
(31 entries), the front vote is popped, `root_slot` becomes the popped slot,
and `increment_credits` runs before the push; concretely, 32 witnessed votes
at slots 2, 4, ..., 64 from the default state end with root slot 2, a
31-entry tower and one credit. -/
theorem c3_overflow_promotes_root :
    (∀ (vs : VoteState) (v : Vote) (w : List (Nat × Nat)) (e : Nat)
        (front : Lockout) (rest : List Lockout),
        VoteState.regressionCheck vs.votes v.slot = false →
        VoteState.witnessCheck v w = true →
        VoteState.pop_expired_votes vs.votes v.slot = front :: rest →
        (front :: rest).length = MAX_LOCKOUT_HISTORY →
        vs.process_vote v w e =
          { (VoteState.increment_credits
              { vs with votes := rest, root_slot := some front.slot } e) with
            votes := VoteState.double_lockouts (rest ++ [Lockout.ofVote v]) }) ∧
    ((VoteState.applyVotes
        ((List.range 32).map (fun i => ⟨⟨2 * (i + 1), 0⟩, [(2 * (i + 1), 0)], 0⟩))
        VoteState.default).root_slot = some 2 ∧
      (VoteState.applyVotes
        ((List.range 32).map (fun i => ⟨⟨2 * (i + 1), 0⟩, [(2 * (i + 1), 0)], 0⟩))
        VoteState.default).votes.length = 31 ∧
      (VoteState.applyVotes
        ((List.range 32).map (fun i => ⟨⟨2 * (i + 1), 0⟩, [(2 * (i + 1), 0)], 0⟩))
        VoteState.default).credits = 1) := by
  constructor
  · intro vs v w e front rest hreg hwit hpop hlen
    have hlen' : ((front :: rest).length == MAX_LOCKOUT_HISTORY) = true := by
      simp [hlen]
    simp only [VoteState.process_vote, hreg, hwit, Bool.not_true, Bool.false_eq_true,
      if_false, hpop, hlen', if_true]
    rw [increment_credits_votes]
  · refine ⟨by decide, by decide, by decide⟩

/-! Structural invariant of the vote tower, used for claim C1. -/

/-- The tower invariant: bounded depth, strictly increasing slots, and each
entry's confirmation count bounded by `MAX_LOCKOUT_HISTORY` minus its
position. -/
def towerInv (votes : List Lockout) : Prop :=
  votes.length ≤ MAX_LOCKOUT_HISTORY ∧
  votes.Pairwise (fun a b => a.slot < b.slot) ∧
  ∀ (i : Nat) (v : Lockout), votes[i]? = some v →
    v.confirmation_count + i ≤ MAX_LOCKOUT_HISTORY

theorem towerInv_append_left (l1 l2 : List Lockout) (h : towerInv (l1 ++ l2)) :
    towerInv l1 := by
  obtain ⟨hlen, hpair, hcc⟩ := h
  refine ⟨?_, (List.pairwise_append.mp hpair).1, ?_⟩
  · rw [List.length_append] at hlen; omega
  · intro i v hv
    have hi : i < l1.length := (List.getElem?_eq_some.mp hv).1
    refine hcc i v ?_
    rw [List.getElem?_append]
    simpa [hi] using hv

theorem towerInv_tail (l : List Lockout) (h : towerInv l) : towerInv l.tail := by
  cases l with
  | nil => exact h
  | cons a t =>
    obtain ⟨hlen, hpair, hcc⟩ := h
    refine ⟨?_, (List.pairwise_cons.mp hpair).2, ?_⟩
    · simp at hlen ⊢; omega
    · intro i v hv
      have := hcc (i + 1) v (by simpa using hv)
      omega

theorem slot_le_getLast : ∀ {l : List Lockout} {z : Lockout},
    l.Pairwise (fun a b => a.slot < b.slot) → l.getLast? = some z →
    ∀ x ∈ l, x.slot ≤ z.slot := by
  intro l
  induction l with
  | nil => intro z _ hz; simp at hz
  | cons a t ih =>
    intro z hp hz x hx
    cases t with
    | nil =>
      simp at hz hx
      subst hz; subst hx; exact Nat.le_refl _
    | cons b m =>
      rw [List.getLast?_cons_cons] at hz
      have hp' := List.pairwise_cons.mp hp
      rcases List.mem_cons.mp hx with rfl | hx'
      · obtain ⟨hne, hzl⟩ := List.mem_getLast?_eq_getLast (Option.mem_def.mpr hz)
        have hzmem : z ∈ b :: m := hzl ▸ List.getLast_mem hne
        exact Nat.le_of_lt (hp'.1 z hzmem)
      · exact ih hp'.2 hz x hx'

theorem slots_lt_of_no_regression {votes : List Lockout} {s : Nat}
    (hp : votes.Pairwise (fun a b => a.slot < b.slot))
    (hreg : VoteState.regressionCheck votes s = false) :
    ∀ x ∈ votes, x.slot < s := by
  intro x hx
  cases hlast : votes.getLast? with
  | none =>
    rw [List.getLast?_eq_none_iff] at hlast
    subst hlast; simp at hx
  | some z =>
    have hzs : z.slot < s := by
      rw [VoteState.regressionCheck, hlast] at hreg
      simp at hreg
      omega
    exact Nat.lt_of_le_of_lt (slot_le_getLast hp hlast x hx) hzs

theorem towerInv_append_new {votes : List Lockout} {s : Nat}
    (h : towerInv votes) (hlen : votes.length ≤ MAX_LOCKOUT_HISTORY - 1)
    (hlt : ∀ x ∈ votes, x.slot < s) :
    towerInv (votes ++ [⟨s, 1⟩]) := by
  obtain ⟨_, h2, h3⟩ := h
  refine ⟨?_, ?_, ?_⟩
  · rw [List.length_append]
    simp [MAX_LOCKOUT_HISTORY] at hlen ⊢
    omega
  · rw [List.pairwise_append]
    refine ⟨h2, List.pairwise_singleton _ _, fun a ha b hb => ?_⟩
    rw [List.mem_singleton] at hb
    subst hb
    exact hlt a ha
  · intro i v hv
    have hi : i < votes.length + 1 := by
      have := (List.getElem?_eq_some.mp hv).1
      simpa using this
    rw [List.getElem?_append] at hv
    by_cases hi' : i < votes.length
    · rw [if_pos hi'] at hv
      exact h3 i v hv
    · rw [if_neg hi'] at hv
      have : i = votes.length := by omega
      subst this
      simp at hv
      subst hv
      simp [MAX_LOCKOUT_HISTORY] at hlen ⊢
      omega

theorem towerInv_double (votes : List Lockout) (h : towerInv votes) :
    towerInv (VoteState.double_lockouts votes) := by
  obtain ⟨h1, h2, h3⟩ := h
  have hlen := double_lockouts_length votes
  refine ⟨by omega, ?_, ?_⟩
  · rw [List.pairwise_iff_getElem] at h2 ⊢
    intro i j hi hj hij
    have hi' : i < votes.length := by omega
    have hj' : j < votes.length := by omega
    have di := double_lockouts_getElem? votes i
    have dj := double_lockouts_getElem? votes j
    rw [List.getElem?_eq_getElem hi, List.getElem?_eq_getElem hi'] at di
    rw [List.getElem?_eq_getElem hj, List.getElem?_eq_getElem hj'] at dj
    simp only [Option.map_some'] at di dj
    have di' := Option.some.inj di
    have dj' := Option.some.inj dj
    have hsi : (VoteState.double_lockouts votes)[i].slot = (votes[i]).slot := by
      rw [di']; split <;> rfl
    have hsj : (VoteState.double_lockouts votes)[j].slot = (votes[j]).slot := by
      rw [dj']; split <;> rfl
    rw [hsi, hsj]
    exact h2 i j hi' hj' hij
  · intro i v hv
    have hi : i < votes.length := by
      have := (List.getElem?_eq_some.mp hv).1
      omega
    rw [double_lockouts_getElem?, List.getElem?_eq_getElem hi] at hv
    simp only [Option.map_some'] at hv
    have hcc := h3 i (votes[i]) (List.getElem?_eq_getElem hi)
    have hv' := Option.some.inj hv
    subst hv'
    split
    · next hcond => simp; omega
    · next hcond => exact hcc

/-- `process_vote` never decreases the credits counter. -/
theorem process_vote_credits_mono (vs : VoteState) (v : Vote)
    (w : List (Nat × Nat)) (e : Nat) :
    vs.credits ≤ (vs.process_vote v w e).credits := by
  by_cases hreg : VoteState.regressionCheck vs.votes v.slot
  · simp [VoteState.process_vote, hreg]
  · by_cases hwit : VoteState.witnessCheck v w
    · simp only [VoteState.process_vote, hreg, hwit, Bool.not_true,
        Bool.false_eq_true, if_false]
      cases hp : VoteState.pop_expired_votes vs.votes v.slot with
      | nil => simp
      | cons front rest =>
        by_cases hfull : rest.length + 1 = MAX_LOCKOUT_HISTORY
        · simp [hfull, increment_credits_credits]
        · simp [hfull]
    · have hwit' : VoteState.witnessCheck v w = false := by
        simpa using hwit
      simp [VoteState.process_vote, hreg, hwit']

/-- `process_vote` preserves the tower invariant. -/
theorem towerInv_process_vote (vs : VoteState) (v : Vote)
    (w : List (Nat × Nat)) (e : Nat) (h : towerInv vs.votes) :
    towerInv (vs.process_vote v w e).votes := by
  by_cases hreg : VoteState.regressionCheck vs.votes v.slot
  · simpa [VoteState.process_vote, hreg] using h
  · by_cases hwit : VoteState.witnessCheck v w
    · have hreg' : VoteState.regressionCheck vs.votes v.slot = false := by
        simpa using hreg
      rw [process_vote_votes_accepted vs v w e hreg' hwit]
      obtain ⟨dropped, hdec, -, -⟩ := pop_expired_decomp vs.votes v.slot
      have hinvp : towerInv (VoteState.pop_expired_votes vs.votes v.slot) :=
        towerInv_append_left _ _ (hdec ▸ h)
      have hltp : ∀ x ∈ VoteState.pop_expired_votes vs.votes v.slot,
          x.slot < v.slot := by
        intro x hx
        exact slots_lt_of_no_regression h.2.1 hreg' x
          (hdec ▸ List.mem_append_left _ hx)
      apply towerInv_double
      by_cases hfull : (VoteState.pop_expired_votes vs.votes v.slot).length =
          MAX_LOCKOUT_HISTORY
      · rw [if_pos hfull]
        refine towerInv_append_new (towerInv_tail _ hinvp) ?_ ?_
        · rw [List.length_tail, hfull]
        · intro x hx
          exact hltp x (List.mem_of_mem_tail hx)
      · rw [if_neg hfull]
        refine towerInv_append_new hinvp ?_ hltp
        have := hinvp.1
        simp [MAX_LOCKOUT_HISTORY] at this hfull ⊢
        omega
    · have hwit' : VoteState.witnessCheck v w = false := by
        simpa using hwit
      simpa [VoteState.process_vote, hreg, hwit'] using h

/-- Any sequence of `process_vote` calls preserves the tower invariant. -/
theorem towerInv_applyVotes (ops : List VoteOp) (vs : VoteState)
    (h : towerInv vs.votes) : towerInv (VoteState.applyVotes ops vs).votes := by
  induction ops generalizing vs with
  | nil => exact h
  | cons op ops ih =>
    exact ih _ (towerInv_process_vote vs op.vote op.slot_hashes op.epoch h)

/-- C1 (amended): along any sequence of `process_vote` calls from a state
with an empty tower (both `VoteState::default()` and `VoteState::new` start
so), the tower holds at most 31 entries, its slots strictly increase from
front to back, the entry at front position `i` has confirmation count at most
`MAX_LOCKOUT_HISTORY - i`, and credits never decrease across any single
`process_vote`. -/
theorem c1_tower_and_credit_invariants :
    (∀ (start : VoteState) (ops : List VoteOp), start.votes = [] →
      (VoteState.applyVotes ops start).votes.length ≤
        MAX_LOCKOUT_HISTORY ∧
      (VoteState.applyVotes ops start).votes.Pairwise
        (fun a b => a.slot < b.slot) ∧
      ∀ (i : Nat) (v : Lockout),
        (VoteState.applyVotes ops start).votes[i]? = some v →
        v.confirmation_count ≤ MAX_LOCKOUT_HISTORY - i) ∧
    (∀ (vs : VoteState) (v : Vote) (w : List (Nat × Nat)) (e : Nat),
      vs.credits ≤ (vs.process_vote v w e).credits) := by
  refine ⟨?_, process_vote_credits_mono⟩
  intro start ops hstart
  have hinv : towerInv (VoteState.applyVotes ops start).votes := by
    refine towerInv_applyVotes ops start ?_
    rw [hstart]
    exact ⟨by simp [MAX_LOCKOUT_HISTORY], by simp, by simp⟩
  obtain ⟨h1, h2, h3⟩ := hinv
  refine ⟨h1, h2, ?_⟩
  intro i v hv
  have hi : i < (VoteState.applyVotes ops start).votes.length :=
    (List.getElem?_eq_some.mp hv).1
  have := h3 i v hv
  omega

/-- Witness for C1 at a one-vote run. -/
theorem c1_witness :
    (Lockout.mk 3 1).confirmation_count ≤ MAX_LOCKOUT_HISTORY - 0 :=
  (c1_tower_and_credit_invariants.1 VoteState.default [⟨⟨3, 0⟩, [(3, 0)], 0⟩]
    rfl).2.2 0 ⟨3, 1⟩ (by decide)

/-- Counterexample to C1 as stated: after witnessed votes at slots 0, 1, 2, 6
from the default state, the tower is `[(0, 3), (6, 1)]`, whose front entry has
confirmation count 3 exceeding `|votes| - 0 = 2`. -/
theorem c1_counterexample :
    ¬ (∀ (i : Nat) (v : Lockout),
        (VoteState.applyVotes
          [⟨⟨0, 0⟩, [(0, 0)], 0⟩, ⟨⟨1, 0⟩, [(1, 0)], 0⟩,
           ⟨⟨2, 0⟩, [(2, 0)], 0⟩, ⟨⟨6, 0⟩, [(6, 0)], 0⟩]
          VoteState.default).votes[i]? = some v →
        v.confirmation_count ≤
          (VoteState.applyVotes
            [⟨⟨0, 0⟩, [(0, 0)], 0⟩, ⟨⟨1, 0⟩, [(1, 0)], 0⟩,
             ⟨⟨2, 0⟩, [(2, 0)], 0⟩, ⟨⟨6, 0⟩, [(6, 0)], 0⟩]
            VoteState.default).votes.length - i) := by
  intro h
  have h0 := h 0 ⟨0, 3⟩ (by decide)
  have hlen : (VoteState.applyVotes
      [⟨⟨0, 0⟩, [(0, 0)], 0⟩, ⟨⟨1, 0⟩, [(1, 0)], 0⟩,
       ⟨⟨2, 0⟩, [(2, 0)], 0⟩, ⟨⟨6, 0⟩, [(6, 0)], 0⟩]
      VoteState.default).votes.length = 2 := by decide
  rw [hlen] at h0
  exact absurd h0 (by decide)

theorem c3_witness :
    VoteState.process_vote
        { VoteState.default with
          votes := (List.range 31).map (fun i => ⟨100 + i, 10⟩) }
        ⟨131, 0⟩ [(131, 0)] 0 =
      { (VoteState.increment_credits
          { { VoteState.default with
              votes := (List.range 31).map (fun i => ⟨100 + i, 10⟩) } with
            votes := (List.range 30).map (fun i => ⟨101 + i, 10⟩),
            root_slot := some ((⟨100, 10⟩ : Lockout).slot) } 0) with
        votes := VoteState.double_lockouts
          (((List.range 30).map (fun i => ⟨101 + i, 10⟩)) ++
            [Lockout.ofVote ⟨131, 0⟩]) } :=
  c3_overflow_promotes_root.1
    { VoteState.default with votes := (List.range 31).map (fun i => ⟨100 + i, 10⟩) }
    ⟨131, 0⟩ [(131, 0)] 0 ⟨100, 10⟩ ((List.range 30).map (fun i => ⟨101 + i, 10⟩))
    (by decide) (by decide) (by decide) (by decide)

/-! Instruction-level entry points over keyed accounts. -/

/-- Instruction-level error kinds (`InstructionError`). -/
inductive InstructionError where
  | MissingRequiredSignature
  | UninitializedAccount
  | AccountAlreadyInitialized
  | InsufficientFunds
  | InvalidAccountData
  | AccountDataTooSmall
  | GenericError
  deriving DecidableEq, Repr

/-- A keyed account handle carrying the signer bit and the stored vote state
(`KeyedAccount`).  Account-data (de)serialization is abstracted: `state()` and
`set_state` become direct field access on a well-formed state. -/
structure KeyedAccount where
  key : Nat
  isSigner : Bool
  voteState : VoteState
  deriving DecidableEq, Repr

/-- The signer's key, when the account signed (`KeyedAccount::signer_key`). -/
def KeyedAccount.signer_key (ka : KeyedAccount) : Option Nat :=
  if ka.isSigner then some ka.key else none

/-- The account's key regardless of signing (`KeyedAccount::unsigned_key`). -/
def KeyedAccount.unsigned_key (ka : KeyedAccount) : Nat := ka.key

/-- The authorization test shared by `authorize_voter` and `process_votes`:
true exactly when neither the vote account itself nor any co-signer is a
signer whose key equals the authorized voter. -/
def missingAuthorizedSignature (vote_account : KeyedAccount)
    (other_signers : List KeyedAccount) (authorized : Nat) : Bool :=
  vote_account.signer_key != some authorized &&
    other_signers.all (fun a => a.signer_key != some authorized)

/-- Change the authorized voter (`authorize_voter`). -/
def authorize_voter (vote_account : KeyedAccount)
    (other_signers : List KeyedAccount) (authorized_voter_pubkey : Nat) :
    Except InstructionError KeyedAccount :=
  let vote_state := vote_account.voteState
  if missingAuthorizedSignature vote_account other_signers
      vote_state.authorized_voter_pubkey then
    .error .MissingRequiredSignature
  else
    .ok { vote_account with
      voteState := { vote_state with
        authorized_voter_pubkey := authorized_voter_pubkey } }

/-- Initialize the vote state for a vote account (`initialize_account`). -/
def initialize_account (vote_account : KeyedAccount)
    (node_pubkey commission : Nat) : Except InstructionError KeyedAccount :=
  let vote_state := vote_account.voteState
  if vote_state.authorized_voter_pubkey != 0 then
    .error .AccountAlreadyInitialized
  else
    .ok { vote_account with
      voteState :=
        VoteState.new vote_account.unsigned_key node_pubkey commission }

/-- Process a vote instruction (module-level `process_votes`). -/
def process_votes (vote_account : KeyedAccount)
    (slot_hashes : List (Nat × Nat)) (clock_epoch : Nat)
    (other_signers : List KeyedAccount) (votes : List Vote) :
    Except InstructionError KeyedAccount :=
  let vote_state := vote_account.voteState
  if vote_state.authorized_voter_pubkey == 0 then
    .error .UninitializedAccount
  else if missingAuthorizedSignature vote_account other_signers
      vote_state.authorized_voter_pubkey then
    .error .MissingRequiredSignature
  else
    .ok { vote_account with
      voteState := vote_state.process_votes votes slot_hashes clock_epoch }

theorem signer_key_ne_iff (ka : KeyedAccount) (auth : Nat) :
    ka.signer_key ≠ some auth ↔ ¬ (ka.isSigner = true ∧ ka.key = auth) := by
  unfold KeyedAccount.signer_key
  by_cases h : ka.isSigner <;> simp [h]

theorem missingAuthorizedSignature_iff (va : KeyedAccount)
    (others : List KeyedAccount) (auth : Nat) :
    missingAuthorizedSignature va others auth = true ↔
      ¬ (va.isSigner = true ∧ va.key = auth) ∧
        ∀ a ∈ others, ¬ (a.isSigner = true ∧ a.key = auth) := by
  rw [missingAuthorizedSignature]
  simp only [Bool.and_eq_true, bne_iff_ne, List.all_eq_true, signer_key_ne_iff]

/-- C8: `process_votes` fails with `UninitializedAccount` when the stored
authorized voter is the default (zero) key, and with
`MissingRequiredSignature` when neither the vote account nor any co-signer is
a signer whose key is the authorized voter; `authorize_voter` applies the
identical signature check and on success sets the authorized voter to the new
key, idempotently when it equals the current one. -/
theorem c8_vote_authorization :
    (∀ (va : KeyedAccount) (sh : List (Nat × Nat)) (ce : Nat)
        (others : List KeyedAccount) (vl : List Vote),
        va.voteState.authorized_voter_pubkey = 0 →
        process_votes va sh ce others vl = .error .UninitializedAccount) ∧
    (∀ (va : KeyedAccount) (sh : List (Nat × Nat)) (ce : Nat)
        (others : List KeyedAccount) (vl : List Vote),
        va.voteState.authorized_voter_pubkey ≠ 0 →
        ¬ (va.isSigner = true ∧ va.key = va.voteState.authorized_voter_pubkey) →
        (∀ a ∈ others,
          ¬ (a.isSigner = true ∧ a.key = va.voteState.authorized_voter_pubkey)) →
        process_votes va sh ce others vl = .error .MissingRequiredSignature) ∧
    (∀ (va : KeyedAccount) (others : List KeyedAccount) (newAuth : Nat),
        ¬ (va.isSigner = true ∧ va.key = va.voteState.authorized_voter_pubkey) →
        (∀ a ∈ others,
          ¬ (a.isSigner = true ∧ a.key = va.voteState.authorized_voter_pubkey)) →
        authorize_voter va others newAuth = .error .MissingRequiredSignature) ∧
    (∀ (va : KeyedAccount) (others : List KeyedAccount) (newAuth : Nat),
        ((va.isSigner = true ∧ va.key = va.voteState.authorized_voter_pubkey) ∨
          ∃ a ∈ others,
            a.isSigner = true ∧ a.key = va.voteState.authorized_voter_pubkey) →
        authorize_voter va others newAuth =
          .ok { va with voteState :=
            { va.voteState with authorized_voter_pubkey := newAuth } }) ∧
    (∀ (va : KeyedAccount) (others : List KeyedAccount),
        ((va.isSigner = true ∧ va.key = va.voteState.authorized_voter_pubkey) ∨
          ∃ a ∈ others,
            a.isSigner = true ∧ a.key = va.voteState.authorized_voter_pubkey) →
        authorize_voter va others va.voteState.authorized_voter_pubkey =
          .ok va) := by
  have hnotmissing : ∀ (va : KeyedAccount) (others : List KeyedAccount),
      ((va.isSigner = true ∧ va.key = va.voteState.authorized_voter_pubkey) ∨
        ∃ a ∈ others,
          a.isSigner = true ∧ a.key = va.voteState.authorized_voter_pubkey) →
      missingAuthorizedSignature va others
        va.voteState.authorized_voter_pubkey = false := by
    intro va others h
    rw [← Bool.not_eq_true, missingAuthorizedSignature_iff]
    rcases h with h | ⟨a, ha, h⟩
    · exact fun hc => hc.1 h
    · exact fun hc => hc.2 a ha h
  refine ⟨?_, ?_, ?_, ?_, ?_⟩
  · intro va sh ce others vl h0
    simp [process_votes, h0]
  · intro va sh ce others vl h0 hva hothers
    have hmiss : missingAuthorizedSignature va others
        va.voteState.authorized_voter_pubkey = true :=
      (missingAuthorizedSignature_iff _ _ _).mpr ⟨hva, hothers⟩
    simp [process_votes, h0, hmiss]
  · intro va others newAuth hva hothers
    have hmiss : missingAuthorizedSignature va others
        va.voteState.authorized_voter_pubkey = true :=
      (missingAuthorizedSignature_iff _ _ _).mpr ⟨hva, hothers⟩
    simp [authorize_voter, hmiss]
  · intro va others newAuth h
    simp [authorize_voter, hnotmissing va others h]
  · intro va others h
    simp [authorize_voter, hnotmissing va others h]

/-- Witness for C8 at a concrete uninitialized account. -/
theorem c8_witness :
    process_votes ⟨7, true, VoteState.default⟩ [] 0 [] [] =
      .error .UninitializedAccount :=
  c8_vote_authorization.1 ⟨7, true, VoteState.default⟩ [] 0 [] [] (by decide)

/-- C9 (amended): `initialize_account` fails with `AlreadyInitialized` iff the
stored authorized voter differs from the default key, and otherwise installs a
fresh state carrying the account's own key, the given node key and commission
and default remaining fields; for any account whose key is not the default
zero key, the transition is one-way: a second initialization always fails. -/
theorem c9_initialize_one_way :
    (∀ (va : KeyedAccount) (n c : Nat),
        va.voteState.authorized_voter_pubkey ≠ 0 →
        initialize_account va n c = .error .AccountAlreadyInitialized) ∧
    (∀ (va : KeyedAccount) (n c : Nat),
        va.voteState.authorized_voter_pubkey = 0 →
        initialize_account va n c =
          .ok { va with voteState := VoteState.new va.key n c }) ∧
    (∀ (va va' : KeyedAccount) (n c n' c' : Nat),
        va.key ≠ 0 →
        initialize_account va n c = .ok va' →
        initialize_account va' n' c' = .error .AccountAlreadyInitialized) := by
  have herr : ∀ (va : KeyedAccount) (n c : Nat),
      va.voteState.authorized_voter_pubkey ≠ 0 →
      initialize_account va n c = .error .AccountAlreadyInitialized := by
    intro va n c h
    simp [initialize_account, h]
  have hok : ∀ (va : KeyedAccount) (n c : Nat),
      va.voteState.authorized_voter_pubkey = 0 →
      initialize_account va n c =
        .ok { va with voteState := VoteState.new va.key n c } := by
    intro va n c h
    simp [initialize_account, h, KeyedAccount.unsigned_key]
  refine ⟨herr, hok, ?_⟩
  intro va va' n c n' c' hkey hinit
  by_cases h0 : va.voteState.authorized_voter_pubkey = 0
  · rw [hok va n c h0] at hinit
    have hva' := Except.ok.inj hinit
    apply herr
    rw [← hva']
    simpa [VoteState.new, VoteState.default] using hkey
  · rw [herr va n c h0] at hinit
    exact absurd hinit (by simp)

/-- Witness for C9 on a concrete initialized account. -/
theorem c9_witness :
    initialize_account ⟨9, true, VoteState.new 9 5 7⟩ 5 7 =
      .error .AccountAlreadyInitialized :=
  c9_initialize_one_way.2.2 ⟨9, true, VoteState.default⟩ ⟨9, true, VoteState.new 9 5 7⟩
    5 7 5 7 (by decide) rfl

/-- Counterexample to C9 as stated: a vote account whose own key is the
default zero key initializes successfully twice, so the second initialization
does not fail. -/
theorem c9_counterexample :
    initialize_account ⟨0, true, VoteState.default⟩ 5 7 =
        .ok ⟨0, true, VoteState.new 0 5 7⟩ ∧
      initialize_account ⟨0, true, VoteState.new 0 5 7⟩ 5 7 =
        .ok ⟨0, true, VoteState.new 0 5 7⟩ :=
  ⟨rfl, rfl⟩

/-! Leader schedule cache (`src/core/src/leader_schedule_cache.rs`). -/

/-- Maximum number of cached schedules (`MAX_SCHEDULES`). -/
def MAX_SCHEDULES : Nat := 10

/-- Minimum epoch length during warmup.  Modelled from the spec: warmup
epochs double in length from a floor; the boundary scenarios fix the floor at
32 slots. -/
def MINIMUM_SLOTS_PER_EPOCH : Nat := 32

/-- Modelled from the spec: the epoch arithmetic configuration.  The
`EpochSchedule` type lives in `solana_runtime::epoch_schedule`, outside the
sources at hand, so `epoch_of`, `first_slot_of`, `slots_in` and
`stakers_epoch` are modelled from spec §3 and §4.1: with warmup on, early
epochs double in length from `MINIMUM_SLOTS_PER_EPOCH` until reaching
`slots_per_epoch`; the stakers epoch is the current epoch plus one inside the
warmup region, and `epoch + ceil(offset / slots_per_epoch) + 1` in the steady
state. -/
structure EpochSchedule where
  slots_per_epoch : Nat
  leader_schedule_slot_offset : Nat
  warmup : Bool
  deriving DecidableEq, Repr

/-- Modelled from the spec: number of slots in an epoch. -/
def EpochSchedule.get_slots_in_epoch (es : EpochSchedule) (epoch : Nat) : Nat :=
  if es.warmup ∧ MINIMUM_SLOTS_PER_EPOCH * 2 ^ epoch < es.slots_per_epoch then
    MINIMUM_SLOTS_PER_EPOCH * 2 ^ epoch
  else es.slots_per_epoch

/-- Modelled from the spec: first slot of an epoch. -/
def EpochSchedule.get_first_slot_in_epoch (es : EpochSchedule) : Nat → Nat
  | 0 => 0
  | e + 1 => es.get_first_slot_in_epoch e + es.get_slots_in_epoch e

/-- Fueled epoch locator: walks forward through epochs, subtracting each
epoch's length; the fuel is an upper bound on the number of steps and never
runs out when it exceeds the slot. -/
def EpochSchedule.epochAux (es : EpochSchedule) : Nat → Nat → Nat → Nat × Nat
  | 0, e, slot => (e, slot)
  | fuel + 1, e, slot =>
    if slot < es.get_slots_in_epoch e then (e, slot)
    else es.epochAux fuel (e + 1) (slot - es.get_slots_in_epoch e)

/-- Modelled from the spec: epoch and intra-epoch index of a slot. -/
def EpochSchedule.get_epoch_and_slot_index (es : EpochSchedule) (slot : Nat) :
    Nat × Nat :=
  es.epochAux (slot + 1) 0 slot

/-- Modelled from the spec: the latest epoch whose leader schedule is fully
determined once `slot` is rooted. -/
def EpochSchedule.get_stakers_epoch (es : EpochSchedule) (slot : Nat) : Nat :=
  let e := (es.get_epoch_and_slot_index slot).1
  if es.warmup ∧ MINIMUM_SLOTS_PER_EPOCH * 2 ^ e < es.slots_per_epoch then
    e + 1
  else
    e + (es.leader_schedule_slot_offset + es.slots_per_epoch - 1) /
      es.slots_per_epoch + 1

/-- Modelled from the spec: a leader schedule assigns a node identity to each
slot index of its epoch (`LeaderSchedule` lives in
`src/core/src/leader_schedule.rs`, not among the sources at hand); it is
embedded as its indexing function. -/
def LeaderSchedule : Type := Nat → Nat

/-- Modelled from the spec: the ledger-state handle.  `schedules` stands for
`leader_schedule_utils::leader_schedule(epoch, bank)` and is `none` exactly
when the bank holds no staker snapshot for the epoch. -/
structure Bank where
  slot : Nat
  epoch_schedule : EpochSchedule
  schedules : Nat → Option LeaderSchedule

/-- Epoch and slot index as computed by the bank. -/
def Bank.get_epoch_and_slot_index (b : Bank) (slot : Nat) : Nat × Nat :=
  b.epoch_schedule.get_epoch_and_slot_index slot

/-- Slots in an epoch as computed by the bank. -/
def Bank.get_slots_in_epoch (b : Bank) (epoch : Nat) : Nat :=
  b.epoch_schedule.get_slots_in_epoch epoch

/-- The leader schedule cache (`LeaderScheduleCache`): the `HashMap` keyed by
epoch is embedded as an association list with unique keys, the `VecDeque`
insertion order as a list whose head is the front. -/
structure LeaderScheduleCache where
  cached_schedules : List (Nat × LeaderSchedule)
  order : List Nat
  epoch_schedule : EpochSchedule
  max_epoch : Nat

/-- Evict the oldest insertion when over capacity
(`LeaderScheduleCache::retain_latest`). -/
def retain_latest (schedules : List (Nat × LeaderSchedule)) (order : List Nat) :
    List (Nat × LeaderSchedule) × List Nat :=
  if schedules.length > MAX_SCHEDULES then
    match order with
    | first :: rest => (schedules.eraseP (fun p => p.1 == first), rest)
    | [] => (schedules, [])
  else (schedules, order)

/-- Compute an epoch's schedule from the bank and insert it if still absent
(`LeaderScheduleCache::compute_epoch_schedule`). -/
def LeaderScheduleCache.compute_epoch_schedule (c : LeaderScheduleCache)
    (epoch : Nat) (bank : Bank) :
    Option LeaderSchedule × LeaderScheduleCache :=
  match bank.schedules epoch with
  | none => (none, c)
  | some leader_schedule =>
    if (c.cached_schedules.lookup epoch).isSome then (some leader_schedule, c)
    else
      let inserted := retain_latest
        (c.cached_schedules ++ [(epoch, leader_schedule)]) (c.order ++ [epoch])
      (some leader_schedule,
        { c with cached_schedules := inserted.1, order := inserted.2 })

/-- Cached schedule for an epoch, else compute it
(`LeaderScheduleCache::get_epoch_schedule_else_compute`). -/
def LeaderScheduleCache.get_epoch_schedule_else_compute
    (c : LeaderScheduleCache) (epoch : Nat) (bank : Bank) :
    Option LeaderSchedule × LeaderScheduleCache :=
  match c.cached_schedules.lookup epoch with
  | some s => (some s, c)
  | none => c.compute_epoch_schedule epoch bank

/-- Read-only cache lookup of a slot's leader
(`LeaderScheduleCache::slot_leader_at_no_compute`). -/
def LeaderScheduleCache.slot_leader_at_no_compute (c : LeaderScheduleCache)
    (slot : Nat) : Option Nat :=
  let p := c.epoch_schedule.get_epoch_and_slot_index slot
  (c.cached_schedules.lookup p.1).map (fun schedule => schedule p.2)

/-- Slot leader with horizon gate and compute-on-miss
(`LeaderScheduleCache::slot_leader_at_else_compute`). -/
def LeaderScheduleCache.slot_leader_at_else_compute (c : LeaderScheduleCache)
    (slot : Nat) (bank : Bank) : Option Nat × LeaderScheduleCache :=
  let cache_result := c.slot_leader_at_no_compute slot
  let bank_epoch := (c.epoch_schedule.get_epoch_and_slot_index slot).1
  if bank_epoch > c.max_epoch then (none, c)
  else if cache_result.isSome then (cache_result, c)
  else
    let p := bank.get_epoch_and_slot_index slot
    match c.compute_epoch_schedule p.1 bank with
    | (some sched, c') => (some (sched p.2), c')
    | (none, c') => (none, c')

/-- Slot leader dispatch (`LeaderScheduleCache::slot_leader_at`). -/
def LeaderScheduleCache.slot_leader_at (c : LeaderScheduleCache) (slot : Nat)
    (bank : Option Bank) : Option Nat × LeaderScheduleCache :=
  match bank with
  | some b => c.slot_leader_at_else_compute slot b
  | none => (c.slot_leader_at_no_compute slot, c)

/-- Advance the confirmed horizon (`LeaderScheduleCache::set_root`); `none`
models the monotonicity assertion firing. -/
def LeaderScheduleCache.set_root (c : LeaderScheduleCache) (root_bank : Bank) :
    Option LeaderScheduleCache :=
  let new_max_epoch := c.epoch_schedule.get_stakers_epoch root_bank.slot
  if new_max_epoch < c.max_epoch then none
  else
    let old_max_epoch := c.max_epoch
    let c := { c with max_epoch := new_max_epoch }
    if new_max_epoch > old_max_epoch then
      some (c.compute_epoch_schedule new_max_epoch root_bank).2
    else some c

/-- Build a cache from a root bank (`LeaderScheduleCache::new`): set the root
and warm the schedules of every epoch strictly below the stakers epoch. -/
def LeaderScheduleCache.new (epoch_schedule : EpochSchedule)
    (root_bank : Bank) : Option LeaderScheduleCache :=
  let c : LeaderScheduleCache :=
    { cached_schedules := [], order := [], epoch_schedule := epoch_schedule,
      max_epoch := 0 }
  (c.set_root root_bank).map (fun c =>
    (List.range (epoch_schedule.get_stakers_epoch root_bank.slot)).foldl
      (fun c e =>
        (c.slot_leader_at (epoch_schedule.get_first_slot_in_epoch e)
          (some root_bank)).2)
      c)

/-- Whether the blockstore reports a slot as already received; the blockstore
is embedded as the map from a slot to its meta's `received` count, flattening
`meta(slot) = None` and `received = 0` into `0`, which the source treats
identically. -/
def btReceived (blocktree : Option (Nat → Nat)) (slot : Nat) : Bool :=
  match blocktree with
  | none => false
  | some received => received slot > 0

/-- Outcome of scanning the remainder of one epoch inside
`next_leader_slot`: either an early return with the found range, or the
carried state for the next epoch. -/
inductive ScanRes where
  | ret : Nat × Nat → ScanRes
  | cont : Option Nat → Nat → Nat → ScanRes
  deriving Repr

/-- The inner `for` loop of `next_leader_slot`: scans `count` slot indices
starting at `i`, with `current_slot` trailing one behind the slot being
examined. -/
def nls_inner (sched : LeaderSchedule) (pk : Nat)
    (blocktree : Option (Nat → Nat)) :
    Nat → Nat → Nat → Option Nat → Nat → ScanRes
  | 0, _, current_slot, first, last => .cont first last current_slot
  | count + 1, i, current_slot, first, last =>
    let current_slot := current_slot + 1
    if sched i == pk then
      if btReceived blocktree current_slot then
        nls_inner sched pk blocktree count (i + 1) current_slot first last
      else
        nls_inner sched pk blocktree count (i + 1) current_slot
          (if first.isNone then some current_slot else first) current_slot
    else
      match first with
      | some f => .ret (f, last)
      | none => nls_inner sched pk blocktree count (i + 1) current_slot none last

/-- The `while let` loop of `next_leader_slot`, fueled by the number of
epochs still to be examined; exhausted fuel behaves like the loop exit on an
uncomputable epoch, and every theorem below supplies enough fuel for the
schedule supply to run out first. -/
def nls_outer (pk : Nat) (bank : Bank) (blocktree : Option (Nat → Nat)) :
    Nat → LeaderScheduleCache → Nat → Nat → Nat → Option Nat → Nat →
    Option (Nat × Nat) × LeaderScheduleCache
  | 0, c, _, _, _, first, last => (first.map (fun f => (f, last)), c)
  | fuel + 1, c, epoch, start_index, current_slot, first, last =>
    match c.get_epoch_schedule_else_compute epoch bank with
    | (none, c') => (first.map (fun f => (f, last)), c')
    | (some sched, c') =>
      match nls_inner sched pk blocktree
          (bank.get_slots_in_epoch epoch - start_index) start_index
          current_slot first last with
      | .ret fl => (some fl, c')
      | .cont first' last' current' =>
        nls_outer pk bank blocktree fuel c' (epoch + 1) 0 current' first' last'

/-- Earliest upcoming leader range of a node
(`LeaderScheduleCache::next_leader_slot`). -/
def LeaderScheduleCache.next_leader_slot (c : LeaderScheduleCache) (pk : Nat)
    (current_slot : Nat) (bank : Bank) (blocktree : Option (Nat → Nat))
    (fuel : Nat) : Option (Nat × Nat) × LeaderScheduleCache :=
  let p := bank.get_epoch_and_slot_index (current_slot + 1)
  nls_outer pk bank blocktree fuel c p.1 p.2 current_slot none current_slot

/-! Theorems about the leader schedule cache. -/

theorem compute_epoch_schedule_max (c : LeaderScheduleCache) (e : Nat)
    (b : Bank) : ((c.compute_epoch_schedule e b).2).max_epoch = c.max_epoch := by
  unfold LeaderScheduleCache.compute_epoch_schedule
  cases b.schedules e with
  | none => rfl
  | some s =>
    simp only []
    split <;> rfl

/-- Concrete bank for the C5 horizon scenario: spec-modelled epoch arithmetic
with 32 slots per epoch, offset 16 and warmup on; stake snapshots are
available for epochs 0 through 3. -/
def c5bank (slot : Nat) : Bank :=
  ⟨slot, ⟨32, 16, true⟩, fun e => if e ≤ 3 then some (fun _ => 42) else none⟩

/-- C5 (amended): a bank-supplied query for a slot in an epoch beyond the
horizon returns none leaving the cache untouched; `set_root` fails its
assertion exactly when the new horizon would shrink, and otherwise installs
the stakers epoch of the new root, never below the old horizon; concretely, with 32-slot epochs, offset 16 and warmup on, rooting slot
0 yields horizon 2, slot 95 resolves while slot 96 does not, and after
`set_root` at slot 95 the horizon is 4, slot 96 resolves while slot 224 does
not. -/
theorem c5_horizon_gate :
    (∀ (c : LeaderScheduleCache) (bank : Bank) (slot : Nat),
        (c.epoch_schedule.get_epoch_and_slot_index slot).1 > c.max_epoch →
        c.slot_leader_at slot (some bank) = (none, c)) ∧
    (∀ (c : LeaderScheduleCache) (bank : Bank) (c' : LeaderScheduleCache),
        c.set_root bank = some c' →
        c'.max_epoch = c.epoch_schedule.get_stakers_epoch bank.slot ∧
        c.max_epoch ≤ c'.max_epoch) ∧
    (∀ (c : LeaderScheduleCache) (bank : Bank),
        c.set_root bank = none ↔
          c.epoch_schedule.get_stakers_epoch bank.slot < c.max_epoch) ∧
    ((LeaderScheduleCache.new ⟨32, 16, true⟩ (c5bank 0)).map (fun c =>
        (c.max_epoch,
         (c.slot_leader_at 95 (some (c5bank 0))).1,
         (c.slot_leader_at 96 (some (c5bank 0))).1)) =
      some (2, some 42, none)) ∧
    (((LeaderScheduleCache.new ⟨32, 16, true⟩ (c5bank 0)).bind
        (fun c => c.set_root (c5bank 95))).map (fun c =>
        (c.max_epoch,
         (c.slot_leader_at 96 (some (c5bank 95))).1,
         (c.slot_leader_at 224 (some (c5bank 95))).1)) =
      some (4, some 42, none)) := by
  refine ⟨?_, ?_, ?_, by decide, by decide⟩
  · intro c bank slot h
    simp only [LeaderScheduleCache.slot_leader_at,
      LeaderScheduleCache.slot_leader_at_else_compute]
    rw [if_pos h]
  · intro c bank c' h
    unfold LeaderScheduleCache.set_root at h
    by_cases hlt : c.epoch_schedule.get_stakers_epoch bank.slot < c.max_epoch
    · rw [if_pos hlt] at h
      exact absurd h (by simp)
    · rw [if_neg hlt] at h
      by_cases hgt : c.epoch_schedule.get_stakers_epoch bank.slot > c.max_epoch
      · rw [if_pos hgt] at h
        have h' := Option.some.inj h
        rw [← h', compute_epoch_schedule_max]
        refine ⟨rfl, ?_⟩
        change c.max_epoch ≤ c.epoch_schedule.get_stakers_epoch bank.slot
        omega
      · rw [if_neg hgt] at h
        have h' := Option.some.inj h
        rw [← h']
        refine ⟨rfl, ?_⟩
        change c.max_epoch ≤ c.epoch_schedule.get_stakers_epoch bank.slot
        omega
  · intro c bank
    unfold LeaderScheduleCache.set_root
    by_cases hlt : c.epoch_schedule.get_stakers_epoch bank.slot < c.max_epoch
    · rw [if_pos hlt]
      simp [hlt]
    · rw [if_neg hlt]
      constructor
      · intro h
        exfalso
        dsimp only [] at h
        by_cases hgt : c.epoch_schedule.get_stakers_epoch bank.slot > c.max_epoch
        · rw [if_pos hgt] at h
          exact absurd h (by simp)
        · rw [if_neg hgt] at h
          exact absurd h (by simp)
      · intro h
        exact absurd h hlt

/-- Witness for C5's horizon gate on a concrete empty cache. -/
theorem c5_witness :
    LeaderScheduleCache.slot_leader_at ⟨[], [], ⟨32, 16, true⟩, 0⟩ 33
        (some (c5bank 0)) =
      (none, ⟨[], [], ⟨32, 16, true⟩, 0⟩) :=
  c5_horizon_gate.1 ⟨[], [], ⟨32, 16, true⟩, 0⟩ (c5bank 0) 33 (by decide)

/-- Counterexample to C5 as stated: under the spec-modelled epoch arithmetic
with 32 slots per epoch, offset 16 and warmup on, rooting slot 0 sets the
horizon to 2, not 1. -/
theorem c5_counterexample :
    ¬ ((LeaderScheduleCache.new ⟨32, 16, true⟩ (c5bank 0)).map
        (fun c => c.max_epoch) = some 1) := by decide

theorem lookup_append_of_none (m : List (Nat × LeaderSchedule)) (e : Nat)
    (s : LeaderSchedule) (h : m.lookup e = none) :
    (m ++ [(e, s)]).lookup e = some s := by
  induction m with
  | nil => simp [List.lookup]
  | cons a t ih =>
    rw [List.cons_append]
    cases a with
    | mk k v =>
      rw [List.lookup_cons] at h ⊢
      cases hek : e == k with
      | true => simp [hek] at h
      | false => exact ih (by simpa [hek] using h)

/-- C10: the bank-free `slot_leader_at` path reads only the cached map — it
serves any cached epoch, with no reference to `max_epoch`, and answers none
on a miss without computing — and `get_epoch_schedule_else_compute` computes
(and, below capacity, caches) a schedule for any epoch the bank can supply,
with no horizon check; the final conjunct serves a cached epoch (5) strictly
beyond the horizon (0). -/
theorem c10_bankless_path_ignores_horizon :
    (∀ (c : LeaderScheduleCache) (slot : Nat),
        c.slot_leader_at slot none = (c.slot_leader_at_no_compute slot, c)) ∧
    (∀ (c : LeaderScheduleCache) (slot : Nat) (sched : LeaderSchedule),
        c.cached_schedules.lookup
            (c.epoch_schedule.get_epoch_and_slot_index slot).1 = some sched →
        c.slot_leader_at_no_compute slot =
          some (sched (c.epoch_schedule.get_epoch_and_slot_index slot).2)) ∧
    (∀ (c : LeaderScheduleCache) (slot : Nat),
        c.cached_schedules.lookup
            (c.epoch_schedule.get_epoch_and_slot_index slot).1 = none →
        c.slot_leader_at_no_compute slot = none) ∧
    (∀ (c : LeaderScheduleCache) (epoch : Nat) (bank : Bank)
        (sched : LeaderSchedule),
        c.cached_schedules.lookup epoch = none →
        bank.schedules epoch = some sched →
        (c.get_epoch_schedule_else_compute epoch bank).1 = some sched ∧
        (c.cached_schedules.length < MAX_SCHEDULES →
          ((c.get_epoch_schedule_else_compute epoch bank).2).cached_schedules.lookup
            epoch = some sched)) ∧
    ((⟨[(5, fun _ => 42)], [5], ⟨32, 16, true⟩, 0⟩ :
        LeaderScheduleCache).slot_leader_at 160 none =
      (some 42, ⟨[(5, fun _ => 42)], [5], ⟨32, 16, true⟩, 0⟩)) := by
  refine ⟨fun c slot => rfl, ?_, ?_, ?_, rfl⟩
  · intro c slot sched h
    simp [LeaderScheduleCache.slot_leader_at_no_compute, h]
  · intro c slot h
    simp [LeaderScheduleCache.slot_leader_at_no_compute, h]
  · intro c epoch bank sched hmiss hbank
    unfold LeaderScheduleCache.get_epoch_schedule_else_compute
    rw [hmiss]
    unfold LeaderScheduleCache.compute_epoch_schedule
    rw [hbank]
    simp only [hmiss, Option.isSome_none, Bool.false_eq_true, if_false]
    refine ⟨trivial, ?_⟩
    intro hlen
    unfold retain_latest
    rw [if_neg (by simp [MAX_SCHEDULES] at hlen ⊢; omega)]
    exact lookup_append_of_none _ _ _ hmiss

/-- Witness for C10 on a concrete cached-beyond-horizon lookup. -/
theorem c10_witness :
    (⟨[(7, fun _ => 9)], [7], ⟨32, 16, true⟩, 0⟩ :
        LeaderScheduleCache).slot_leader_at_no_compute 224 = some 9 :=
  c10_bankless_path_ignores_horizon.2.1
    ⟨[(7, fun _ => 9)], [7], ⟨32, 16, true⟩, 0⟩ 224 (fun _ => 9) rfl

/-! Claim C6: the FIFO bound of the schedule cache. -/

/-- The cache bookkeeping invariant: the map's key sequence coincides with
the insertion order and the map is within capacity. -/
def cacheInv (c : LeaderScheduleCache) : Prop :=
  c.cached_schedules.map Prod.fst = c.order ∧
  c.cached_schedules.length ≤ MAX_SCHEDULES

/-- Apply a sequence of schedule computations (the only insertion path). -/
def applyComputes (ops : List (Nat × Bank)) (c : LeaderScheduleCache) :
    LeaderScheduleCache :=
  ops.foldl (fun c p => (c.compute_epoch_schedule p.1 p.2).2) c

theorem retain_latest_inv (m : List (Nat × LeaderSchedule)) (o : List Nat)
    (hkeys : m.map Prod.fst = o) (hlen : m.length ≤ MAX_SCHEDULES + 1) :
    (retain_latest m o).1.map Prod.fst = (retain_latest m o).2 ∧
    (retain_latest m o).1.length ≤ MAX_SCHEDULES := by
  unfold retain_latest
  by_cases hsz : m.length > MAX_SCHEDULES
  · cases m with
    | nil => simp [MAX_SCHEDULES] at hsz
    | cons hd tl =>
      rw [if_pos hsz, ← hkeys]
      simp only [List.map_cons]
      rw [List.eraseP_cons_of_pos (by simp)]
      refine ⟨rfl, ?_⟩
      simp at hsz hlen ⊢
      omega
  · rw [if_neg hsz]
    exact ⟨hkeys, by simp only []; omega⟩

theorem cacheInv_compute (c : LeaderScheduleCache) (e : Nat) (b : Bank)
    (h : cacheInv c) : cacheInv (c.compute_epoch_schedule e b).2 := by
  obtain ⟨hkeys, hlen⟩ := h
  unfold LeaderScheduleCache.compute_epoch_schedule
  cases b.schedules e with
  | none => exact ⟨hkeys, hlen⟩
  | some s =>
    simp only []
    by_cases hl : (c.cached_schedules.lookup e).isSome
    · rw [if_pos hl]
      exact ⟨hkeys, hlen⟩
    · rw [if_neg hl]
      have hkeys' : (c.cached_schedules ++ [(e, s)]).map Prod.fst =
          c.order ++ [e] := by
        rw [List.map_append, hkeys]
        rfl
      have hlen' : (c.cached_schedules ++ [(e, s)]).length ≤
          MAX_SCHEDULES + 1 := by
        simp only [List.length_append, List.length_singleton]
        omega
      exact retain_latest_inv _ _ hkeys' hlen'

theorem cacheInv_applyComputes (ops : List (Nat × Bank))
    (c : LeaderScheduleCache) (h : cacheInv c) :
    cacheInv (applyComputes ops c) := by
  induction ops generalizing c with
  | nil => exact h
  | cons op ops ih => exact ih _ (cacheInv_compute c op.1 op.2 h)

/-- Concrete bank used in the C6 scenario: every epoch's schedule is
available. -/
def c6bank : Bank := ⟨0, ⟨32, 16, true⟩, fun _ => some (fun _ => 7)⟩

/-- C6: along any sequence of schedule insertions the cached map's keys
coincide (as a sequence, hence as a multiset) with the insertion order and
the map holds at most 10 schedules; an insertion overflowing the capacity
evicts exactly the front of the insertion order; concretely, inserting epochs
0 through 10 leaves keys and order `[1, ..., 10]`. -/
theorem c6_cache_fifo_bound :
    (∀ (ops : List (Nat × Bank)) (c : LeaderScheduleCache), cacheInv c →
        (applyComputes ops c).cached_schedules.map Prod.fst =
          (applyComputes ops c).order ∧
        List.Perm ((applyComputes ops c).cached_schedules.map Prod.fst)
          (applyComputes ops c).order ∧
        (applyComputes ops c).cached_schedules.length ≤ MAX_SCHEDULES) ∧
    (∀ (m : List (Nat × LeaderSchedule)) (first : Nat) (rest : List Nat),
        m.length > MAX_SCHEDULES →
        retain_latest m (first :: rest) =
          (m.eraseP (fun p => p.1 == first), rest)) ∧
    ((applyComputes ((List.range 11).map (fun e => (e, c6bank)))
        ⟨[], [], ⟨32, 16, true⟩, 0⟩).order =
      [1, 2, 3, 4, 5, 6, 7, 8, 9, 10] ∧
      (applyComputes ((List.range 11).map (fun e => (e, c6bank)))
        ⟨[], [], ⟨32, 16, true⟩, 0⟩).cached_schedules.map Prod.fst =
      [1, 2, 3, 4, 5, 6, 7, 8, 9, 10]) := by
  refine ⟨?_, ?_, by decide, by decide⟩
  · intro ops c h
    obtain ⟨hkeys, hlen⟩ := cacheInv_applyComputes ops c h
    exact ⟨hkeys, hkeys ▸ List.Perm.refl _, hlen⟩
  · intro m first rest hsz
    unfold retain_latest
    rw [if_pos hsz]

/-- Witness for C6 on a concrete one-step insertion. -/
theorem c6_witness :
    (applyComputes [(3, c6bank)] ⟨[], [], ⟨32, 16, true⟩, 0⟩).cached_schedules.map
        Prod.fst = (applyComputes [(3, c6bank)] ⟨[], [], ⟨32, 16, true⟩, 0⟩).order ∧
    (applyComputes [(3, c6bank)] ⟨[], [], ⟨32, 16, true⟩, 0⟩).cached_schedules.length ≤
      MAX_SCHEDULES :=
  ⟨(c6_cache_fifo_bound.1 [(3, c6bank)] ⟨[], [], ⟨32, 16, true⟩, 0⟩
      ⟨rfl, by decide⟩).1,
   (c6_cache_fifo_bound.1 [(3, c6bank)] ⟨[], [], ⟨32, 16, true⟩, 0⟩
      ⟨rfl, by decide⟩).2.2⟩

/-! Claim C7: `next_leader_slot`.  The two-level epoch scan is first related
to a single flat scan over consecutive slot numbers, and the flat scan to a
declarative description of the earliest maximal contiguous leader run.  -/

/-- Outcome of a flat scan prefix: early return or carried state. -/
inductive PartRes where
  | ret : Nat × Nat → PartRes
  | cont : Option Nat → Nat → PartRes
  deriving DecidableEq, Repr

/-- Flat reformulation of the scan body of `next_leader_slot`: one step per
slot, `L` telling whether the node leads the slot and `R` whether the
blockstore already received it. -/
def flatScanPart (L R : Nat → Bool) : List Nat → Option Nat → Nat → PartRes
  | [], first, last => .cont first last
  | s :: rest, first, last =>
    if L s then
      if R s then flatScanPart L R rest first last
      else flatScanPart L R rest (if first.isNone then some s else first) s
    else
      match first with
      | some f => .ret (f, last)
      | none => flatScanPart L R rest none last

/-- Result of a complete flat scan, with the loop-exit wrap-up of
`next_leader_slot`. -/
def flatScanFrom (L R : Nat → Bool) (slots : List Nat) (first : Option Nat)
    (last : Nat) : Option (Nat × Nat) :=
  match flatScanPart L R slots first last with
  | .ret fl => some fl
  | .cont f l => f.map (fun x => (x, l))

/-- Run-extension phase: walk slots while the node leads, remembering the
latest non-received leader slot, stopping at the first non-leader slot. -/
def phase2 (L R : Nat → Bool) : List Nat → Nat → Nat
  | [], last => last
  | s :: rest, last =>
    if L s then (if R s then phase2 L R rest last else phase2 L R rest s)
    else last

/-- Locate the earliest leader slot that is not already received, returning
it along with the remaining slots. -/
def findGoodSplit (L R : Nat → Bool) : List Nat → Option (Nat × List Nat)
  | [] => none
  | s :: rest => if L s && !R s then some (s, rest) else findGoodSplit L R rest

/-- Declarative description of the claim: the earliest leader slot `f` not
already received opens the run; the run is bounded by the first non-leader
slot after `f` (or the end of the scanned window); the reported last slot is
the latest non-received leader slot within that bound. -/
def nls_spec (L R : Nat → Bool) (current_slot n : Nat) : Option (Nat × Nat) :=
  let slots := List.range' (current_slot + 1) n
  match (slots.filter (fun s => L s && !R s)).head? with
  | none => none
  | some f =>
    let stop := ((slots.filter (fun s => decide (f < s) && !L s)).head?).getD
      (current_slot + 1 + n)
    some (f, ((slots.filter (fun s =>
      L s && !R s && decide (s < stop))).getLast?).getD f)

theorem flatScanFrom_some (L R : Nat → Bool) :
    ∀ (slots : List Nat) (f last : Nat),
    flatScanFrom L R slots (some f) last = some (f, phase2 L R slots last) := by
  intro slots
  induction slots with
  | nil => intro f last; rfl
  | cons s rest ih =>
    intro f last
    by_cases hL : L s
    · by_cases hR : R s
      · simpa [flatScanFrom, flatScanPart, phase2, hL, hR] using ih f last
      · simpa [flatScanFrom, flatScanPart, phase2, hL, hR] using ih f s
    · simp [flatScanFrom, flatScanPart, phase2, hL]

theorem flatScanFrom_none (L R : Nat → Bool) :
    ∀ (slots : List Nat) (last0 : Nat),
    flatScanFrom L R slots none last0 =
      (findGoodSplit L R slots).map (fun fp => (fp.1, phase2 L R fp.2 fp.1)) := by
  intro slots
  induction slots with
  | nil => intro last0; rfl
  | cons s rest ih =>
    intro last0
    by_cases hL : L s
    · by_cases hR : R s
      · have hg : (L s && !R s) = false := by simp [hL, hR]
        simpa [flatScanFrom, flatScanPart, findGoodSplit, hL, hR, hg]
          using ih last0
      · have hstep : flatScanFrom L R (s :: rest) none last0 =
            flatScanFrom L R rest (some s) s := by
          simp [flatScanFrom, flatScanPart, hL, hR]
        rw [hstep, flatScanFrom_some]
        have hg : (L s && !R s) = true := by simp [hL, hR]
        simp [findGoodSplit, hg]
    · have hg : (L s && !R s) = false := by simp [hL]
      simpa [flatScanFrom, flatScanPart, findGoodSplit, hL, hg] using ih last0

theorem findGoodSplit_fst (L R : Nat → Bool) :
    ∀ slots : List Nat,
    (findGoodSplit L R slots).map Prod.fst =
      (slots.filter (fun s => L s && !R s)).head? := by
  intro slots
  induction slots with
  | nil => rfl
  | cons s rest ih =>
    by_cases hg : (L s && !R s) = true
    · simp [findGoodSplit, List.filter_cons, hg]
    · simp only [Bool.not_eq_true] at hg
      simp [findGoodSplit, List.filter_cons, hg, ih]

theorem findGoodSplit_range' (L R : Nat → Bool) :
    ∀ (n a f : Nat) (post : List Nat),
    findGoodSplit L R (List.range' a n) = some (f, post) →
    a ≤ f ∧ f < a + n ∧ post = List.range' (f + 1) (a + n - (f + 1)) ∧
      ∀ s, a ≤ s → s < f → (L s && !R s) = false := by
  intro n
  induction n with
  | zero => intro a f post h; simp [findGoodSplit] at h
  | succ n ih =>
    intro a f post h
    rw [List.range'_succ] at h
    by_cases hg : (L a && !R a) = true
    · rw [findGoodSplit, if_pos hg] at h
      obtain ⟨rfl, rfl⟩ := Prod.mk.injEq .. ▸ Option.some.inj h
      refine ⟨Nat.le_refl _, by omega, ?_, ?_⟩
      · have : a + (n + 1) - (a + 1) = n := by omega
        rw [this]
      · intro s hs hs'; omega
    · simp only [Bool.not_eq_true] at hg
      rw [findGoodSplit, hg] at h
      simp only [Bool.false_eq_true, if_false] at h
      obtain ⟨h1, h2, h3, h4⟩ := ih (a + 1) f post h
      refine ⟨by omega, by omega, ?_, ?_⟩
      · have : a + 1 + n - (f + 1) = a + (n + 1) - (f + 1) := by omega
        rw [← this]; exact h3
      · intro s hs hs'
        rcases Nat.eq_or_lt_of_le hs with rfl | hlt
        · exact hg
        · exact h4 s (by omega) hs'

theorem range'_split (a n k : Nat) (h : k ≤ n) :
    List.range' a n = List.range' a k ++ List.range' (a + k) (n - k) := by
  have hr := List.range'_append a k (n - k) 1
  rw [Nat.one_mul] at hr
  have hnk : n - k + k = n := by omega
  rw [hnk] at hr
  exact hr.symm

theorem phase2_range'_eq (L R : Nat → Bool) :
    ∀ (m b last0 : Nat), last0 < b →
    phase2 L R (List.range' b m) last0 =
      (((List.range' b m).filter (fun s => L s && !R s &&
        decide (s < (((List.range' b m).filter
          (fun s => !L s)).head?).getD (b + m)))).getLast?).getD last0 := by
  intro m
  induction m with
  | zero => intro b last0 _; rfl
  | succ m ih =>
    intro b last0 hlt
    rw [List.range'_succ]
    by_cases hL : L b
    · by_cases hR : R b
      · -- leader but received: skip, accumulator unchanged
        have hg : (L b && !R b) = false := by simp [hL, hR]
        rw [phase2, if_pos hL, if_pos hR]
        rw [ih (b + 1) last0 (by omega)]
        rw [List.filter_cons, List.filter_cons]
        simp only [hL, hR, Bool.not_true, Bool.and_false, Bool.false_and,
          Bool.false_eq_true, if_false, Bool.not_eq_true']
        have : b + (m + 1) = b + 1 + m := by omega
        rw [this]
      · -- leader, not received: accumulator becomes b
        rw [phase2, if_pos hL, if_neg (by simp [hR])]
        rw [ih (b + 1) b (by omega)]
        rw [List.filter_cons, List.filter_cons]
        have harith : b + (m + 1) = b + 1 + m := by omega
        have hstop : ((((List.range' (b + 1) m).filter
            (fun s => !L s)).head?).getD (b + (m + 1))) =
            ((((List.range' (b + 1) m).filter
              (fun s => !L s)).head?).getD (b + 1 + m)) := by
          rw [harith]
        simp only [hL, hR, Bool.not_true, Bool.not_false, Bool.and_true,
          Bool.true_and, Bool.false_eq_true, if_false]
        rw [hstop]
        set stop := ((((List.range' (b + 1) m).filter
          (fun s => !L s)).head?).getD (b + 1 + m)) with hstopdef
        have hbstop : b < stop := by
          rcases hh : ((List.range' (b + 1) m).filter (fun s => !L s)).head? with
            _ | x
          · rw [hstopdef, hh]; simp; omega
          · rw [hstopdef, hh]
            simp only [Option.getD_some]
            have hx : x ∈ (List.range' (b + 1) m).filter (fun s => !L s) := by
              exact List.mem_of_mem_head? hh
            have := List.mem_range'_1.mp (List.mem_filter.mp hx).1
            omega
        rw [if_pos (by simp [hbstop])]
        rcases hrest : (List.range' (b + 1) m).filter
            (fun s => L s && !R s && decide (s < stop)) with _ | ⟨y, ys⟩
        · simp [hrest]
        · simp only [hrest, List.getLast?_cons_cons]
          rw [List.getLast?_eq_getLast_of_ne_nil (List.cons_ne_nil y ys)]
          simp
    · -- non-leader slot terminates the run
      rw [phase2, if_neg hL]
      rw [List.filter_cons, List.filter_cons]
      simp only [hL, Bool.false_and, Bool.false_eq_true, if_false,
        Bool.not_false, if_true]
      have hstop : (((b :: (List.range' (b + 1) m).filter (fun s => !L s)).head?).getD
          (b + (m + 1))) = b := by simp
      rw [hstop]
      have hnil : (List.range' b (m + 1)).filter
          (fun s => L s && !R s && decide (s < b)) = [] := by
        rw [List.filter_eq_nil_iff]
        intro x hx
        have := List.mem_range'_1.mp hx
        simp
        intro _ _
        omega
      rw [List.range'_succ] at hnil
      rw [List.filter_cons] at hnil
      simp only [hL, Bool.false_and, Bool.false_eq_true, if_false] at hnil
      rw [hnil]
      rfl

theorem findGoodSplit_good (L R : Nat → Bool) :
    ∀ (slots : List Nat) (f : Nat) (post : List Nat),
    findGoodSplit L R slots = some (f, post) → (L f && !R f) = true := by
  intro slots
  induction slots with
  | nil => intro f post h; simp [findGoodSplit] at h
  | cons s rest ih =>
    intro f post h
    by_cases hg : (L s && !R s) = true
    · rw [findGoodSplit, if_pos hg] at h
      obtain ⟨rfl, rfl⟩ := Prod.mk.injEq .. ▸ Option.some.inj h
      exact hg
    · rw [findGoodSplit, if_neg hg] at h
      exact ih f post h

theorem getLast?_cons_getD {α : Type} (f d : α) (l : List α) :
    ((f :: l).getLast?).getD d = (l.getLast?).getD f := by
  cases l with
  | nil => rfl
  | cons y ys =>
    rw [List.getLast?_cons_cons]
    rw [List.getLast?_eq_getLast_of_ne_nil (List.cons_ne_nil y ys)]
    rfl

/-- The flat scan started from scratch computes the declarative
specification. -/
theorem flatScanFrom_eq_spec (L R : Nat → Bool) (c n : Nat) :
    flatScanFrom L R (List.range' (c + 1) n) none c = nls_spec L R c n := by
  rw [flatScanFrom_none]
  simp only [nls_spec]
  cases hsplit : findGoodSplit L R (List.range' (c + 1) n) with
  | none =>
    have hfst := findGoodSplit_fst L R (List.range' (c + 1) n)
    rw [hsplit] at hfst
    simp only [Option.map_none'] at hfst
    rw [← hfst]
    rfl
  | some fp =>
    obtain ⟨f, post⟩ := fp
    have hfst := findGoodSplit_fst L R (List.range' (c + 1) n)
    rw [hsplit] at hfst
    simp only [Option.map_some'] at hfst
    rw [← hfst]
    simp only [Option.map_some']
    obtain ⟨haf, hfn, hpost, hbefore⟩ :=
      findGoodSplit_range' L R n (c + 1) f post hsplit
    have hgood := findGoodSplit_good L R (List.range' (c + 1) n) f post hsplit
    have hLf : L f = true := by
      rcases Bool.and_eq_true_iff.mp hgood with ⟨h1, _⟩
      exact h1
    have hRf : R f = false := by
      rcases Bool.and_eq_true_iff.mp hgood with ⟨_, h2⟩
      simpa using h2
    have hdec : List.range' (c + 1) n =
        List.range' (c + 1) (f + 1 - (c + 1)) ++
          List.range' (f + 1) (c + 1 + n - (f + 1)) := by
      have h0 := range'_split (c + 1) n (f + 1 - (c + 1)) (by omega)
      have h1 : c + 1 + (f + 1 - (c + 1)) = f + 1 := by omega
      have h2 : n - (f + 1 - (c + 1)) = c + 1 + n - (f + 1) := by omega
      rw [h1, h2] at h0
      exact h0
    have hstopfilter :
        (List.range' (c + 1) n).filter (fun s => decide (f < s) && !L s) =
          (List.range' (f + 1) (c + 1 + n - (f + 1))).filter
            (fun s => !L s) := by
      rw [hdec, List.filter_append]
      have hnil : (List.range' (c + 1) (f + 1 - (c + 1))).filter
          (fun s => decide (f < s) && !L s) = [] := by
        rw [List.filter_eq_nil_iff]
        intro x hx
        have hxb := List.mem_range'_1.mp hx
        simp only [Bool.and_eq_true, decide_eq_true_eq, not_and]
        intro hfx
        omega
      rw [hnil, List.nil_append]
      refine List.filter_congr ?_
      intro x hx
      have hxb := List.mem_range'_1.mp hx
      have hfx : f < x := by omega
      simp [hfx]
    rw [hpost, hstopfilter]
    set stop := ((((List.range' (f + 1) (c + 1 + n - (f + 1))).filter
      (fun s => !L s)).head?).getD (c + 1 + n)) with hstopdef
    have hfstop : f < stop := by
      rcases hh : ((List.range' (f + 1) (c + 1 + n - (f + 1))).filter
          (fun s => !L s)).head? with _ | x
      · rw [hstopdef, hh]
        simp only [Option.getD_none]
        omega
      · rw [hstopdef, hh]
        simp only [Option.getD_some]
        have hx := List.mem_of_mem_head? hh
        have := List.mem_range'_1.mp (List.mem_filter.mp hx).1
        omega
    have hp2 := phase2_range'_eq L R (c + 1 + n - (f + 1)) (f + 1) f
      (by omega)
    have hdefault : f + 1 + (c + 1 + n - (f + 1)) = c + 1 + n := by omega
    rw [hdefault] at hp2
    rw [hp2]
    have hlastfilter :
        (List.range' (c + 1) n).filter
            (fun s => L s && !R s && decide (s < stop)) =
          f :: ((List.range' (f + 1) (c + 1 + n - (f + 1))).filter
            (fun s => L s && !R s && decide (s < stop))) := by
      rw [hdec, List.filter_append]
      have hpre : List.range' (c + 1) (f + 1 - (c + 1)) =
          List.range' (c + 1) (f - (c + 1)) ++ [f] := by
        have h0 := range'_split (c + 1) (f + 1 - (c + 1)) (f - (c + 1))
          (by omega)
        have h1 : c + 1 + (f - (c + 1)) = f := by omega
        have h2 : f + 1 - (c + 1) - (f - (c + 1)) = 1 := by omega
        rw [h1, h2] at h0
        simpa using h0
      rw [hpre, List.filter_append]
      have hnil : (List.range' (c + 1) (f - (c + 1))).filter
          (fun s => L s && !R s && decide (s < stop)) = [] := by
        rw [List.filter_eq_nil_iff]
        intro x hx
        have hxb := List.mem_range'_1.mp hx
        have hbad := hbefore x (by omega) (by omega)
        intro hcon
        have hgx : (L x && !R x) = true := (Bool.and_eq_true_iff.mp hcon).1
        rw [hgx] at hbad
        exact absurd hbad (by simp)
      have hone : ([f] : List Nat).filter
          (fun s => L s && !R s && decide (s < stop)) = [f] := by
        simp [hLf, hRf, hfstop]
      rw [hnil, hone, List.nil_append, List.cons_append, List.nil_append]
    rw [hlastfilter, getLast?_cons_getD]

/-! Epoch arithmetic facts used to flatten the two-level scan. -/

theorem slots_in_epoch_pos (es : EpochSchedule)
    (hS : 0 < es.slots_per_epoch) (e : Nat) :
    0 < es.get_slots_in_epoch e := by
  unfold EpochSchedule.get_slots_in_epoch
  split
  · exact Nat.mul_pos (by norm_num [MINIMUM_SLOTS_PER_EPOCH])
      (Nat.pos_pow_of_pos e (by norm_num))
  · exact hS

theorem epochAux_correct (es : EpochSchedule) (hS : 0 < es.slots_per_epoch) :
    ∀ (fuel e slot : Nat), slot < fuel →
    (es.epochAux fuel e slot).2 <
        es.get_slots_in_epoch (es.epochAux fuel e slot).1 ∧
      es.get_first_slot_in_epoch (es.epochAux fuel e slot).1 +
          (es.epochAux fuel e slot).2 =
        es.get_first_slot_in_epoch e + slot ∧
      e ≤ (es.epochAux fuel e slot).1 := by
  intro fuel
  induction fuel with
  | zero => intro e slot h; omega
  | succ fuel ih =>
    intro e slot h
    rw [EpochSchedule.epochAux]
    by_cases hlt : slot < es.get_slots_in_epoch e
    · rw [if_pos hlt]
      exact ⟨hlt, rfl, Nat.le_refl e⟩
    · rw [if_neg hlt]
      have hpos := slots_in_epoch_pos es hS e
      obtain ⟨c1, c2, c3⟩ := ih (e + 1) (slot - es.get_slots_in_epoch e)
        (by omega)
      refine ⟨c1, ?_, by omega⟩
      rw [c2, EpochSchedule.get_first_slot_in_epoch]
      omega

theorem get_epoch_and_slot_index_correct (es : EpochSchedule)
    (hS : 0 < es.slots_per_epoch) (slot : Nat) :
    (es.get_epoch_and_slot_index slot).2 <
        es.get_slots_in_epoch (es.get_epoch_and_slot_index slot).1 ∧
      es.get_first_slot_in_epoch (es.get_epoch_and_slot_index slot).1 +
        (es.get_epoch_and_slot_index slot).2 = slot := by
  have h := epochAux_correct es hS (slot + 1) 0 slot (by omega)
  unfold EpochSchedule.get_epoch_and_slot_index
  refine ⟨h.1, ?_⟩
  have h2 := h.2.1
  rw [EpochSchedule.get_first_slot_in_epoch] at h2
  omega

theorem first_slot_mono (es : EpochSchedule) {e e' : Nat} (h : e ≤ e') :
    es.get_first_slot_in_epoch e ≤ es.get_first_slot_in_epoch e' := by
  induction h with
  | refl => exact Nat.le_refl _
  | step h ih =>
    rw [EpochSchedule.get_first_slot_in_epoch]
    omega

theorem first_slot_succ_le (es : EpochSchedule) {e e' : Nat} (h : e < e') :
    es.get_first_slot_in_epoch e + es.get_slots_in_epoch e ≤
      es.get_first_slot_in_epoch e' := by
  have h1 := first_slot_mono es (show e + 1 ≤ e' from h)
  rw [EpochSchedule.get_first_slot_in_epoch] at h1
  exact h1

theorem locate_first_slot_add (es : EpochSchedule)
    (hS : 0 < es.slots_per_epoch) {e i : Nat}
    (hi : i < es.get_slots_in_epoch e) :
    es.get_epoch_and_slot_index (es.get_first_slot_in_epoch e + i) = (e, i) := by
  obtain ⟨h1, h2⟩ := get_epoch_and_slot_index_correct es hS
    (es.get_first_slot_in_epoch e + i)
  set p := es.get_epoch_and_slot_index (es.get_first_slot_in_epoch e + i)
    with hp
  have he : p.1 = e := by
    by_contra hne
    rcases Nat.lt_or_ge p.1 e with hlt | hge
    · have := first_slot_succ_le es hlt
      omega
    · have hgt : e < p.1 := by omega
      have := first_slot_succ_le es hgt
      omega
  have hi2 : p.2 = i := by
    rw [he] at h2
    omega
  rw [← he, ← hi2]

/-! Absence of future epochs in the cache survives a compute. -/

theorem lookup_eraseP_none (m : List (Nat × LeaderSchedule)) (k : Nat)
    (q : Nat × LeaderSchedule → Bool) (h : m.lookup k = none) :
    (m.eraseP q).lookup k = none := by
  induction m with
  | nil => rfl
  | cons a t ih =>
    obtain ⟨ka, va⟩ := a
    rw [List.lookup_cons] at h
    cases hk : (k == ka) with
    | true => simp [hk] at h
    | false =>
      have ht : t.lookup k = none := by simpa [hk] using h
      rw [List.eraseP_cons]
      cases hq : q (ka, va) with
      | true => simpa using ht
      | false =>
        simp only [cond_false]
        rw [List.lookup_cons]
        simp [hk, ih ht]

theorem lookup_append_left_none (m m' : List (Nat × LeaderSchedule)) (k : Nat)
    (h : m.lookup k = none) : (m ++ m').lookup k = m'.lookup k := by
  induction m with
  | nil => rfl
  | cons a t ih =>
    obtain ⟨ka, va⟩ := a
    rw [List.lookup_cons] at h
    cases hk : (k == ka) with
    | true => simp [hk] at h
    | false =>
      have ht : t.lookup k = none := by simpa [hk] using h
      rw [List.cons_append, List.lookup_cons]
      simp [hk, ih ht]

theorem compute_fst (c : LeaderScheduleCache) (epoch : Nat) (b : Bank) :
    (c.compute_epoch_schedule epoch b).1 = b.schedules epoch := by
  unfold LeaderScheduleCache.compute_epoch_schedule
  cases b.schedules epoch with
  | none => rfl
  | some s =>
    simp only []
    split <;> rfl

theorem compute_absent (c : LeaderScheduleCache) (epoch : Nat) (b : Bank)
    (k : Nat) (hk : k ≠ epoch) (h : c.cached_schedules.lookup k = none) :
    ((c.compute_epoch_schedule epoch b).2).cached_schedules.lookup k =
      none := by
  unfold LeaderScheduleCache.compute_epoch_schedule
  cases b.schedules epoch with
  | none => exact h
  | some s =>
    simp only []
    split
    · exact h
    · have habs : (c.cached_schedules ++ [(epoch, s)]).lookup k = none := by
        rw [lookup_append_left_none _ _ _ h, List.lookup_cons]
        have : (k == epoch) = false := by
          simp [hk]
        simp [this]
      unfold retain_latest
      split
      · cases ho : c.order ++ [epoch] with
        | nil => exact absurd ho (by simp)
        | cons first rest =>
          simp only []
          exact lookup_eraseP_none _ _ _ habs
      · exact habs

theorem gese_absent (c : LeaderScheduleCache) (epoch : Nat) (b : Bank)
    (h : c.cached_schedules.lookup epoch = none) :
    c.get_epoch_schedule_else_compute epoch b =
      c.compute_epoch_schedule epoch b := by
  unfold LeaderScheduleCache.get_epoch_schedule_else_compute
  rw [h]

/-! The inner epoch loop agrees with the flat scan on its slot segment. -/

theorem nls_inner_eq (sched : LeaderSchedule) (pk : Nat)
    (blocktree : Option (Nat → Nat)) (L : Nat → Bool) :
    ∀ (count i cur : Nat) (first : Option Nat) (last : Nat),
    (∀ j, j < count → (sched (i + j) == pk) = L (cur + 1 + j)) →
    nls_inner sched pk blocktree count i cur first last =
      (match flatScanPart L (fun s => btReceived blocktree s)
          (List.range' (cur + 1) count) first last with
        | .ret fl => ScanRes.ret fl
        | .cont f l => ScanRes.cont f l (cur + count)) := by
  intro count
  induction count with
  | zero => intro i cur first last hL; rfl
  | succ count ih =>
    intro i cur first last hL
    rw [List.range'_succ]
    simp only [nls_inner, flatScanPart]
    have h0 := hL 0 (by omega)
    simp only [Nat.add_zero] at h0
    have hL' : ∀ j, j < count → (sched (i + 1 + j) == pk) = L (cur + 1 + 1 + j) := by
      intro j hj
      have := hL (j + 1) (by omega)
      have e1 : i + (j + 1) = i + 1 + j := by omega
      have e2 : cur + 1 + (j + 1) = cur + 1 + 1 + j := by omega
      rw [e1, e2] at this
      exact this
    have harith : cur + 1 + count = cur + (count + 1) := by omega
    rw [h0]
    by_cases hLs : L (cur + 1)
    · rw [if_pos hLs, if_pos hLs]
      by_cases hRs : btReceived blocktree (cur + 1)
      · rw [if_pos hRs, if_pos hRs]
        rw [ih (i + 1) (cur + 1) first last hL']
        rw [harith]
      · rw [if_neg hRs, if_neg hRs]
        rw [ih (i + 1) (cur + 1) (if first.isNone then some (cur + 1) else first)
          (cur + 1) hL']
        rw [harith]
    · rw [if_neg hLs, if_neg hLs]
      cases first with
      | some f => rfl
      | none =>
        rw [ih (i + 1) (cur + 1) none last hL']
        rw [harith]

theorem flatScanPart_append (L R : Nat → Bool) :
    ∀ (l1 l2 : List Nat) (first : Option Nat) (last : Nat),
    flatScanPart L R (l1 ++ l2) first last =
      (match flatScanPart L R l1 first last with
        | .ret fl => .ret fl
        | .cont f l => flatScanPart L R l2 f l) := by
  intro l1
  induction l1 with
  | nil => intro l2 first last; rfl
  | cons s rest ih =>
    intro l2 first last
    rw [List.cons_append]
    simp only [flatScanPart]
    by_cases hL : L s
    · by_cases hR : R s
      · simp only [if_pos hL, if_pos hR]
        exact ih l2 first last
      · simp only [if_pos hL, if_neg hR]
        exact ih l2 _ s
    · simp only [if_neg hL]
      cases first with
      | some f => rfl
      | none => exact ih l2 none last

theorem flatScanFrom_append (L R : Nat → Bool) (l1 l2 : List Nat)
    (first : Option Nat) (last : Nat) :
    flatScanFrom L R (l1 ++ l2) first last =
      (match flatScanPart L R l1 first last with
        | .ret fl => some fl
        | .cont f l => flatScanFrom L R l2 f l) := by
  unfold flatScanFrom
  rw [flatScanPart_append]
  cases flatScanPart L R l1 first last <;> rfl

/-- Whether the node leads a slot, as determined by the bank's schedules and
epoch arithmetic. -/
def bankLeader (bank : Bank) (pk : Nat) (s : Nat) : Bool :=
  match bank.schedules (bank.get_epoch_and_slot_index s).1 with
  | some sched => sched (bank.get_epoch_and_slot_index s).2 == pk
  | none => false

/-- The epoch-walking loop of `next_leader_slot` equals the flat scan over
the window of slots whose epochs the bank can still supply. -/
theorem nls_outer_eq (pk : Nat) (bank : Bank) (blocktree : Option (Nat → Nat))
    (hS : 0 < bank.epoch_schedule.slots_per_epoch) :
    ∀ (K fuel : Nat) (c : LeaderScheduleCache) (e idx cur : Nat)
      (first : Option Nat) (last : Nat),
      K < fuel →
      (∀ j, j < K → (bank.schedules (e + j)).isSome = true) →
      bank.schedules (e + K) = none →
      (∀ e', e ≤ e' → c.cached_schedules.lookup e' = none) →
      cur + 1 = bank.epoch_schedule.get_first_slot_in_epoch e + idx →
      idx ≤ bank.epoch_schedule.get_slots_in_epoch e →
      (nls_outer pk bank blocktree fuel c e idx cur first last).1 =
        flatScanFrom (bankLeader bank pk) (fun s => btReceived blocktree s)
          (List.range' (cur + 1)
            (bank.epoch_schedule.get_first_slot_in_epoch (e + K) - (cur + 1)))
          first last := by
  intro K
  induction K with
  | zero =>
    intro fuel c e idx cur first last hfuel hav hstop habs hcur hidx
    cases fuel with
    | zero => omega
    | succ fuel =>
      rw [Nat.add_zero] at hstop
      have hg : c.get_epoch_schedule_else_compute e bank = (none, c) := by
        rw [gese_absent c e bank (habs e (Nat.le_refl e))]
        unfold LeaderScheduleCache.compute_epoch_schedule
        rw [hstop]
      simp only [nls_outer, hg]
      have hlen : bank.epoch_schedule.get_first_slot_in_epoch (e + 0) -
          (cur + 1) = 0 := by
        rw [Nat.add_zero]
        omega
      rw [hlen]
      rfl
  | succ K ih =>
    intro fuel c e idx cur first last hfuel hav hstop habs hcur hidx
    cases fuel with
    | zero => omega
    | succ fuel =>
      have hsome : ∃ sched_e, bank.schedules e = some sched_e := by
        have h0 := hav 0 (by omega)
        rw [Nat.add_zero] at h0
        exact Option.isSome_iff_exists.mp h0
      obtain ⟨sched_e, hsched⟩ := hsome
      have hg : c.get_epoch_schedule_else_compute e bank =
          (some sched_e, (c.compute_epoch_schedule e bank).2) := by
        rw [gese_absent c e bank (habs e (Nat.le_refl e))]
        have heta : c.compute_epoch_schedule e bank =
            ((c.compute_epoch_schedule e bank).1,
              (c.compute_epoch_schedule e bank).2) := rfl
        rw [heta, compute_fst, hsched]
      simp only [nls_outer, hg]
      have hLpoint : ∀ j, j < bank.get_slots_in_epoch e - idx →
          (sched_e (idx + j) == pk) = bankLeader bank pk (cur + 1 + j) := by
        intro j hj
        have hidxj : idx + j < bank.epoch_schedule.get_slots_in_epoch e := by
          unfold Bank.get_slots_in_epoch at hj
          omega
        have hslot : cur + 1 + j =
            bank.epoch_schedule.get_first_slot_in_epoch e + (idx + j) := by
          omega
        rw [hslot]
        unfold bankLeader Bank.get_epoch_and_slot_index
        rw [locate_first_slot_add bank.epoch_schedule hS hidxj]
        rw [hsched]
      rw [nls_inner_eq sched_e pk blocktree (bankLeader bank pk)
        (bank.get_slots_in_epoch e - idx) idx cur first last hLpoint]
      have hsucc : bank.epoch_schedule.get_first_slot_in_epoch (e + 1) =
          bank.epoch_schedule.get_first_slot_in_epoch e +
            bank.epoch_schedule.get_slots_in_epoch e := by
        rw [EpochSchedule.get_first_slot_in_epoch]
      have hmono : bank.epoch_schedule.get_first_slot_in_epoch (e + 1) ≤
          bank.epoch_schedule.get_first_slot_in_epoch (e + (K + 1)) :=
        first_slot_mono bank.epoch_schedule (by omega)
      have hcount : cur + 1 + (bank.get_slots_in_epoch e - idx) =
          bank.epoch_schedule.get_first_slot_in_epoch (e + 1) := by
        unfold Bank.get_slots_in_epoch
        omega
      have hlenN : bank.epoch_schedule.get_first_slot_in_epoch (e + (K + 1)) -
          (cur + 1) =
          (bank.get_slots_in_epoch e - idx) +
            (bank.epoch_schedule.get_first_slot_in_epoch (e + (K + 1)) -
              bank.epoch_schedule.get_first_slot_in_epoch (e + 1)) := by
        unfold Bank.get_slots_in_epoch
        omega
      have hdec : List.range' (cur + 1)
          (bank.epoch_schedule.get_first_slot_in_epoch (e + (K + 1)) -
            (cur + 1)) =
          List.range' (cur + 1) (bank.get_slots_in_epoch e - idx) ++
            List.range' (bank.epoch_schedule.get_first_slot_in_epoch (e + 1))
              (bank.epoch_schedule.get_first_slot_in_epoch (e + (K + 1)) -
                bank.epoch_schedule.get_first_slot_in_epoch (e + 1)) := by
        rw [hlenN]
        have h0 := range'_split (cur + 1)
          ((bank.get_slots_in_epoch e - idx) +
            (bank.epoch_schedule.get_first_slot_in_epoch (e + (K + 1)) -
              bank.epoch_schedule.get_first_slot_in_epoch (e + 1)))
          (bank.get_slots_in_epoch e - idx) (by omega)
        rw [hcount] at h0
        have h1 : (bank.get_slots_in_epoch e - idx) +
            (bank.epoch_schedule.get_first_slot_in_epoch (e + (K + 1)) -
              bank.epoch_schedule.get_first_slot_in_epoch (e + 1)) -
            (bank.get_slots_in_epoch e - idx) =
            bank.epoch_schedule.get_first_slot_in_epoch (e + (K + 1)) -
              bank.epoch_schedule.get_first_slot_in_epoch (e + 1) := by
          omega
        rw [h1] at h0
        exact h0
      rw [hdec, flatScanFrom_append]
      rcases hpart : flatScanPart (bankLeader bank pk)
          (fun s => btReceived blocktree s)
          (List.range' (cur + 1) (bank.get_slots_in_epoch e - idx))
          first last with fl | ⟨f', l'⟩
      · rfl
      · simp only []
        have habs' : ∀ e', e + 1 ≤ e' →
            ((c.compute_epoch_schedule e bank).2).cached_schedules.lookup e' =
              none := by
          intro e' he'
          exact compute_absent c e bank e' (by omega) (habs e' (by omega))
        have hav' : ∀ j, j < K →
            (bank.schedules (e + 1 + j)).isSome = true := by
          intro j hj
          have := hav (j + 1) (by omega)
          have harr : e + (j + 1) = e + 1 + j := by omega
          rwa [harr] at this
        have hstop' : bank.schedules (e + 1 + K) = none := by
          have harr : e + (K + 1) = e + 1 + K := by omega
          rwa [harr] at hstop
        have hcur' : cur + (bank.get_slots_in_epoch e - idx) + 1 =
            bank.epoch_schedule.get_first_slot_in_epoch (e + 1) + 0 := by
          omega
        have hrec := ih fuel ((c.compute_epoch_schedule e bank).2) (e + 1) 0
          (cur + (bank.get_slots_in_epoch e - idx)) f' l' (by omega) hav'
          hstop' habs' hcur' (Nat.zero_le _)
        rw [hrec]
        have harr1 : cur + (bank.get_slots_in_epoch e - idx) + 1 =
            bank.epoch_schedule.get_first_slot_in_epoch (e + 1) := by
          omega
        have harr2 : e + 1 + K = e + (K + 1) := by omega
        rw [harr1, harr2]

/-- Epoch configuration of the C7 scenario: one 16384-slot epoch, no
warmup. -/
def c7es : EpochSchedule := ⟨16384, 0, false⟩

/-- Bank of the C7 scenario: node 55 leads every slot of epoch 0; no staker
snapshot beyond epoch 0. -/
def c7bank : Bank := ⟨0, c7es, fun e => if e = 0 then some (fun _ => 55) else none⟩

/-- Fresh cache for the C7 scenario. -/
def c7cache : LeaderScheduleCache := ⟨[], [], c7es, 0⟩

/-- Blockstore of the C7 scenario: slot 1 already received. -/
def c7bt : Option (Nat → Nat) := some (fun s => if s = 1 then 1 else 0)

theorem c7_locate (s : Nat) (h : s < 16384) :
    c7es.get_epoch_and_slot_index s = (0, s) := by
  unfold EpochSchedule.get_epoch_and_slot_index
  rw [EpochSchedule.epochAux]
  have hlen : c7es.get_slots_in_epoch 0 = 16384 := rfl
  rw [hlen, if_pos h]

theorem c7_leader (s : Nat) (h : s < 16384) : bankLeader c7bank 55 s = true := by
  unfold bankLeader Bank.get_epoch_and_slot_index
  have hes : c7bank.epoch_schedule = c7es := rfl
  rw [hes, c7_locate s h]
  rfl

/-- C7: on a fresh cache and a bank whose stake snapshots run out after `K`
epochs, `next_leader_slot` returns the earliest maximal contiguous leader run
above `current_slot` within the supplied window, skipping received slots
without terminating the run and returning none when no leader slot exists;
concretely, with a single-node 16384-slot epoch 0, node 55 gets `(1, 16383)`
from slot 0, and `(2, 16383)` once slot 1 is already received. -/
theorem c7_next_leader_run :
    (∀ (c : LeaderScheduleCache) (pk current_slot : Nat) (bank : Bank)
        (blocktree : Option (Nat → Nat)) (fuel K : Nat),
        0 < bank.epoch_schedule.slots_per_epoch →
        c.cached_schedules = [] →
        K < fuel →
        (∀ j, j < K →
          (bank.schedules
            ((bank.get_epoch_and_slot_index (current_slot + 1)).1 + j)).isSome =
            true) →
        bank.schedules
          ((bank.get_epoch_and_slot_index (current_slot + 1)).1 + K) = none →
        (c.next_leader_slot pk current_slot bank blocktree fuel).1 =
          nls_spec (bankLeader bank pk) (fun s => btReceived blocktree s)
            current_slot
            (bank.epoch_schedule.get_first_slot_in_epoch
              ((bank.get_epoch_and_slot_index (current_slot + 1)).1 + K) -
              (current_slot + 1))) ∧
    (c7cache.next_leader_slot 55 0 c7bank none 2).1 = some (1, 16383) ∧
    (c7cache.next_leader_slot 55 0 c7bank c7bt 2).1 = some (2, 16383) := by
  have hgen : ∀ (c : LeaderScheduleCache) (pk current_slot : Nat) (bank : Bank)
      (blocktree : Option (Nat → Nat)) (fuel K : Nat),
      0 < bank.epoch_schedule.slots_per_epoch →
      c.cached_schedules = [] →
      K < fuel →
      (∀ j, j < K →
        (bank.schedules
          ((bank.get_epoch_and_slot_index (current_slot + 1)).1 + j)).isSome =
          true) →
      bank.schedules
        ((bank.get_epoch_and_slot_index (current_slot + 1)).1 + K) = none →
      (c.next_leader_slot pk current_slot bank blocktree fuel).1 =
        nls_spec (bankLeader bank pk) (fun s => btReceived blocktree s)
          current_slot
          (bank.epoch_schedule.get_first_slot_in_epoch
            ((bank.get_epoch_and_slot_index (current_slot + 1)).1 + K) -
            (current_slot + 1)) := by
    intro c pk current_slot bank blocktree fuel K hS hempty hfuel hav hstop
    unfold LeaderScheduleCache.next_leader_slot
    obtain ⟨hi0, hfs⟩ := get_epoch_and_slot_index_correct bank.epoch_schedule
      hS (current_slot + 1)
    have habs : ∀ e', (bank.get_epoch_and_slot_index (current_slot + 1)).1 ≤ e' →
        c.cached_schedules.lookup e' = none := by
      intro e' _
      rw [hempty]
      rfl
    have hcur : current_slot + 1 =
        bank.epoch_schedule.get_first_slot_in_epoch
          (bank.get_epoch_and_slot_index (current_slot + 1)).1 +
          (bank.get_epoch_and_slot_index (current_slot + 1)).2 := by
      exact hfs.symm
    have houter := nls_outer_eq pk bank blocktree hS K fuel c
      (bank.get_epoch_and_slot_index (current_slot + 1)).1
      (bank.get_epoch_and_slot_index (current_slot + 1)).2
      current_slot none current_slot hfuel hav hstop habs hcur
      (Nat.le_of_lt hi0)
    rw [houter]
    exact flatScanFrom_eq_spec _ _ current_slot _
  refine ⟨hgen, ?_, ?_⟩
  · -- scenario without a blockstore
    have h1 := hgen c7cache 55 0 c7bank none 2 1 (by norm_num [c7bank, c7es])
      rfl (by norm_num) (by decide) rfl
    rw [h1]
    have hn : c7bank.epoch_schedule.get_first_slot_in_epoch
        ((c7bank.get_epoch_and_slot_index (0 + 1)).1 + 1) - (0 + 1) = 16383 := by
      decide
    rw [hn]
    simp only [nls_spec, Nat.zero_add]
    have hfilter1 : (List.range' 1 16383).filter
        (fun s => bankLeader c7bank 55 s && !btReceived none s) =
        List.range' 1 16383 := by
      refine List.filter_eq_self.mpr ?_
      intro s hs
      have hsb := List.mem_range'_1.mp hs
      have := c7_leader s (by omega)
      simp [this, btReceived]
    rw [hfilter1, List.head?_range']
    simp only [OfNat.ofNat_ne_zero, if_false]
    have hstopf : (List.range' 1 16383).filter
        (fun s => decide (1 < s) && !bankLeader c7bank 55 s) = [] := by
      rw [List.filter_eq_nil_iff]
      intro x hx
      have hxb := List.mem_range'_1.mp hx
      have := c7_leader x (by omega)
      simp [this]
    rw [hstopf]
    simp only [List.head?_nil, Option.getD_none]
    have hfilter2 : (List.range' 1 16383).filter
        (fun s => bankLeader c7bank 55 s && !btReceived none s &&
          decide (s < 1 + 16383)) = List.range' 1 16383 := by
      refine List.filter_eq_self.mpr ?_
      intro s hs
      have hsb := List.mem_range'_1.mp hs
      have := c7_leader s (by omega)
      simp [this, btReceived]
      omega
    rw [hfilter2, List.getLast?_range']
    norm_num
  · -- scenario with slot 1 already received
    have h1 := hgen c7cache 55 0 c7bank c7bt 2 1 (by norm_num [c7bank, c7es])
      rfl (by norm_num) (by decide) rfl
    rw [h1]
    have hn : c7bank.epoch_schedule.get_first_slot_in_epoch
        ((c7bank.get_epoch_and_slot_index (0 + 1)).1 + 1) - (0 + 1) = 16383 := by
      decide
    rw [hn]
    simp only [nls_spec, Nat.zero_add]
    have hR1 : btReceived c7bt 1 = true := by decide
    have hRother : ∀ s, s ≠ 1 → btReceived c7bt s = false := by
      intro s hs
      simp [btReceived, c7bt, hs]
    have hrange : List.range' 1 16383 = 1 :: List.range' 2 16382 := by
      rw [List.range'_succ]
    have hbad1 : (bankLeader c7bank 55 1 && !btReceived c7bt 1) = false := by
      rw [hR1]
      simp
    have hfilterg : (List.range' 1 16383).filter
        (fun s => bankLeader c7bank 55 s && !btReceived c7bt s) =
        List.range' 2 16382 := by
      rw [hrange, List.filter_cons]
      simp only [hbad1, Bool.false_eq_true, if_false]
      refine List.filter_eq_self.mpr ?_
      intro s hs
      have hsb := List.mem_range'_1.mp hs
      have hl := c7_leader s (by omega)
      have hr := hRother s (by omega)
      simp [hl, hr]
    rw [hfilterg, List.head?_range']
    simp only [OfNat.ofNat_ne_zero, if_false]
    have hstopf : (List.range' 1 16383).filter
        (fun s => decide (2 < s) && !bankLeader c7bank 55 s) = [] := by
      rw [List.filter_eq_nil_iff]
      intro x hx
      have hxb := List.mem_range'_1.mp hx
      have := c7_leader x (by omega)
      simp [this]
    rw [hstopf]
    simp only [List.head?_nil, Option.getD_none]
    have hfilter2 : (List.range' 1 16383).filter
        (fun s => bankLeader c7bank 55 s && !btReceived c7bt s &&
          decide (s < 1 + 16383)) = List.range' 2 16382 := by
      rw [hrange, List.filter_cons]
      have hb1 : (bankLeader c7bank 55 1 && !btReceived c7bt 1 &&
          decide ((1 : Nat) < 1 + 16383)) = false := by
        rw [hR1]
        simp
      simp only [hb1, Bool.false_eq_true, if_false]
      refine List.filter_eq_self.mpr ?_
      intro s hs
      have hsb := List.mem_range'_1.mp hs
      have hl := c7_leader s (by omega)
      have hr := hRother s (by omega)
      simp [hl, hr]
      omega
    rw [hfilter2, List.getLast?_range']
    norm_num

/-- Witness for C7's general run characterization on a small single-epoch
bank. -/
theorem c7_witness :
    ((⟨[], [], ⟨32, 0, false⟩, 0⟩ : LeaderScheduleCache).next_leader_slot 5 0
        (⟨0, ⟨32, 0, false⟩, fun e => if e = 0 then some (fun _ => 5) else none⟩ : Bank)
        none 2).1 =
      nls_spec
        (bankLeader
          (⟨0, ⟨32, 0, false⟩, fun e => if e = 0 then some (fun _ => 5) else none⟩ : Bank) 5)
        (fun s => btReceived none s) 0
        ((⟨0, ⟨32, 0, false⟩, fun e => if e = 0 then some (fun _ => 5) else none⟩ : Bank).epoch_schedule.get_first_slot_in_epoch
          (((⟨0, ⟨32, 0, false⟩, fun e => if e = 0 then some (fun _ => 5) else none⟩ : Bank).get_epoch_and_slot_index (0 + 1)).1 + 1) -
          (0 + 1)) :=
  c7_next_leader_run.1 ⟨[], [], ⟨32, 0, false⟩, 0⟩ 5 0
    ⟨0, ⟨32, 0, false⟩, fun e => if e = 0 then some (fun _ => 5) else none⟩
    none 2 1 (by norm_num) rfl (by norm_num) (by decide) rfl

end Solana
